import Mathlib

/-!
# The FogLAMP "scale" filter: `plugin_ingest`

A shallow embedding of `src/plugin.cpp`.  The filter multiplies every integer and
floating-point data point of a reading set by a configured factor and hands the
reading set to the next stage of the pipeline.

The arithmetic of the source is C++ `double` arithmetic, so the development starts
with an executable model of IEEE 754 binary64 (round to nearest, ties to even),
the conversions `long → double` and `double → long`, and the C library's `strtod`.
-/

set_option maxRecDepth 20000
set_option exponentiation.threshold 2000

namespace ScaleFilter

/-! ## IEEE 754 binary64 -/

/-- Number of bit patterns of finite magnitudes: biased exponent `0 .. 0x7FE`,
52 fraction bits. -/
def FINITE_BOUND : Nat := 0x7FF0000000000000

/-- A C++ `double`.  A finite value carries its sign and the 63 low bits of its
encoding (biased exponent and fraction), so every inhabitant is a double and two
doubles are equal exactly when their encodings are.  NaN payloads are not
distinguished. -/
inductive Double where
  | nan
  | inf (neg : Bool)
  | fin (neg : Bool) (bits : Fin FINITE_BOUND)
deriving DecidableEq

namespace Double

/-- Integer significand of a finite encoding: the fraction field, with the hidden
bit unless the biased exponent is zero (subnormal). -/
def mant (k : Nat) : Nat :=
  if k / 2 ^ 52 = 0 then k % 2 ^ 52 else 2 ^ 52 + k % 2 ^ 52

/-- Exponent of the unit in the last place: the value of encoding `k` is
`mant k * 2 ^ expo k`. -/
def expo (k : Nat) : Int :=
  (max (k / 2 ^ 52) 1 : Nat) - 1075

/-- The fraction `n / (d * 2 ^ q)` as a pair of naturals. -/
def scale2 (n d : Nat) (q : Int) : Nat × Nat :=
  if 0 ≤ q then (n, d * 2 ^ q.toNat) else (n * 2 ^ (-q).toNat, d)

/-- Position of the highest set bit, by repeated halving (`fuel` bounds the
number of halvings). -/
def log2Fuel : Nat → Nat → Nat
  | 0, _ => 0
  | fuel + 1, n => if n < 2 then 0 else log2Fuel fuel (n / 2) + 1

/-- Floor of the binary logarithm of a positive natural. -/
def log2 (n : Nat) : Nat := log2Fuel n n

/-- Floor of the binary logarithm of the positive fraction `n / d`. -/
def ilog2 (n d : Nat) : Int :=
  let l : Int := (log2 n : Int) - (log2 d : Int)
  let s := scale2 n d l
  if s.2 ≤ s.1 then l else l - 1

/-- Packs a sign and a magnitude encoding; an encoding past the largest finite
one is an overflow and gives an infinity. -/
def ofBits (neg : Bool) (k : Nat) : Double :=
  if h : k < FINITE_BOUND then fin neg ⟨k, h⟩ else inf neg

/-- Rounds the non-negative fraction `n / d` (`d > 0`) to the nearest double, ties
to even, and gives it the sign `neg`.  The quantum is `2 ^ (e - 52)` where `e` is
the binary exponent of the fraction, not below that of the smallest normal
number; a significand that rounds up to `2 ^ 53` carries into the exponent field
because the encoding is `(e + 1022) * 2 ^ 52 + significand`. -/
def roundNE (neg : Bool) (n d : Nat) : Double :=
  if n = 0 then ofBits neg 0
  else
    let e : Int := max (ilog2 n d) (-1022)
    let s := scale2 n d (e - 52)
    let m := s.1 / s.2
    let r := s.1 % s.2
    let m1 := if s.2 < 2 * r ∨ (2 * r = s.2 ∧ m % 2 = 1) then m + 1 else m
    ofBits neg ((e + 1022).toNat * 2 ^ 52 + m1)

/-- Conversion `long → double` (the usual arithmetic conversion applied to the
left operand of `value.toInt() * scaleFactor`). -/
def ofLong (v : Int) : Double :=
  roundNE (decide (v < 0)) v.natAbs 1

/-- The product `x * y` of two doubles. -/
def mul : Double → Double → Double
  | nan, _ => nan
  | _, nan => nan
  | inf s, inf t => inf (xor s t)
  | inf s, fin t k => if k.val = 0 then nan else inf (xor s t)
  | fin s k, inf t => if k.val = 0 then nan else inf (xor s t)
  | fin s k, fin t l =>
    let p := scale2 (mant k.val * mant l.val) 1 (-(expo k.val + expo l.val))
    roundNE (xor s t) p.1 p.2

/-- Integer part of a finite double, fraction discarded (rounding toward zero);
`none` for NaN and the infinities. -/
def truncate : Double → Option Int
  | nan => none
  | inf _ => none
  | fin s k =>
    let p := scale2 (mant k.val) 1 (-(expo k.val))
    let t : Int := ((p.1 / p.2 : Nat) : Int)
    some (if s then -t else t)

/-- The cast `(long)x`.  When the truncated value does not fit a 64-bit `long`
(or `x` is NaN or infinite) C++ leaves the result undefined; the model takes
what the hardware conversion yields there as the parameter `indef`. -/
def toLong (indef : Double → Int) (x : Double) : Int :=
  match truncate x with
  | some t => if -2 ^ 63 ≤ t ∧ t < 2 ^ 63 then t else indef x
  | none => indef x

/-- Exact value of a finite double as a rational number (`0` for NaN and the
infinities, which have none). -/
def toRat : Double → ℚ
  | nan => 0
  | inf _ => 0
  | fin s k =>
    let p := scale2 (mant k.val) 1 (-(expo k.val))
    let q : ℚ := (p.1 : ℚ) / (p.2 : ℚ)
    if s then -q else q

/-- A double that is neither NaN nor infinite. -/
def isFinite : Double → Bool
  | fin _ _ => true
  | _ => false

/-- The double `0.0`. -/
def zero : Double := ofBits false 0

/-- The zero of the given sign: `0.0` or `-0.0`. -/
def signedZero (neg : Bool) : Double := ofBits neg 0

/-- The double `100.0`. -/
def hundred : Double := ofBits false 0x4059000000000000

/-- The double `1.0`. -/
def one : Double := ofBits false 0x3FF0000000000000

/-- Whether the product `x * f` is computed without rounding: both operands and
the product are finite and the product is the exact one. -/
def exactProduct (x f : Double) : Bool :=
  match x, f, mul x f with
  | fin _ k, fin _ l, fin _ z =>
    let p := scale2 (mant k.val * mant l.val) 1 (-(expo k.val + expo l.val))
    let r := scale2 (mant z.val) 1 (-(expo z.val))
    p.1 * r.2 = r.1 * p.2
  | _, _, _ => false

/-- Whether the cast `(long)x` is defined: `x` is finite and its integer part fits
a 64-bit `long`. -/
def longCastDefined (x : Double) : Bool :=
  match truncate x with
  | some t => -2 ^ 63 ≤ t ∧ t < 2 ^ 63
  | none => false

/-- Whether `x` is an integer that fits a 64-bit `long`, so that the cast
`(long)x` discards nothing. -/
def isLongValued (x : Double) : Bool :=
  match x with
  | fin _ k =>
    let p := scale2 (mant k.val) 1 (-(expo k.val))
    p.1 % p.2 = 0 && longCastDefined x
  | _ => false

end Double

/-- Rounding of a rational toward zero. -/
def truncTowardZero (q : ℚ) : Int :=
  if 0 ≤ q then ⌊q⌋ else ⌈q⌉

/-- An integer that fits a `long` and whose conversion to `double` is exact. -/
def exactAsDouble (v : Int) : Prop :=
  -2 ^ 63 ≤ v ∧ v < 2 ^ 63 ∧ (Double.ofLong v).isFinite = true ∧
    (Double.ofLong v).toRat = (v : ℚ)

/-! ## `strtod` -/

/-- White space of the C locale (`isspace`). -/
def isSpace (c : Char) : Bool :=
  c = ' ' || (9 ≤ c.toNat && c.toNat ≤ 13)

/-- Value of a digit in the given base (10 or 16), if the character is one. -/
def digitVal (base : Nat) (c : Char) : Option Nat :=
  if '0' ≤ c ∧ c ≤ '9' then some (c.toNat - 48)
  else if base = 16 ∧ 'a' ≤ c ∧ c ≤ 'f' then some (c.toNat - 87)
  else if base = 16 ∧ 'A' ≤ c ∧ c ≤ 'F' then some (c.toNat - 55)
  else none

/-- Reads the longest run of digits: accumulated value, number of digits read and
the remaining characters. -/
def readDigits (base : Nat) : List Char → Nat → Nat → Nat × Nat × List Char
  | [], acc, cnt => (acc, cnt, [])
  | c :: cs, acc, cnt =>
    match digitVal base c with
    | some d => readDigits base cs (acc * base + d) (cnt + 1)
    | none => (acc, cnt, c :: cs)

/-- Drops leading white space. -/
def skipSpace : List Char → List Char
  | [] => []
  | c :: cs => if isSpace c then skipSpace cs else c :: cs

/-- An optional sign: whether it was a minus, and the remaining characters. -/
def readSign : List Char → Bool × List Char
  | [] => (false, [])
  | c :: cs => if c = '-' then (true, cs) else if c = '+' then (false, cs) else (false, c :: cs)

/-- An optional exponent part: the letter `mark` (either case), an optional sign
and at least one decimal digit.  Gives `0` when there is none. -/
def readExponent (mark : Char) : List Char → Int
  | [] => 0
  | c :: cs =>
    if c.toLower = mark then
      let sg := readSign cs
      let r := readDigits 10 sg.2 0 0
      if r.2.1 = 0 then 0 else if sg.1 then -(r.1 : Int) else (r.1 : Int)
    else 0

/-- Digits with an optional radix point and an optional exponent, in the given
base: the significand digits as a natural `m`, and the exponent `x` of `radix`
such that the number is `m * radix ^ x` (`radix` is 10 for decimal, 2 for
hexadecimal).  `none` when there is no digit at all. -/
def readNumber (base : Nat) (mark : Char) (cs : List Char) : Option (Nat × Int) :=
  let ip := readDigits base cs 0 0
  let fp : Nat × Nat × List Char :=
    match ip.2.2 with
    | [] => (ip.1, 0, [])
    | c :: rest => if c = '.' then readDigits base rest ip.1 0 else (ip.1, 0, c :: rest)
  if ip.2.1 + fp.2.1 = 0 then none
  else
    let perDigit : Int := if base = 16 then 4 else 1
    some (fp.1, readExponent mark fp.2.2 - perDigit * (fp.2.1 : Int))

/-- Whether the characters start with the given lower-case word, ignoring case. -/
def startsWithCI : List Char → List Char → Bool
  | [], _ => true
  | _ :: _, [] => false
  | w :: ws, c :: cs => c.toLower = w && startsWithCI ws cs

/-- The value `m * radix ^ x` rounded to a double. -/
def roundScaled (neg : Bool) (radix : Nat) (m : Nat) (x : Int) : Double :=
  if 0 ≤ x then Double.roundNE neg (m * radix ^ x.toNat) 1
  else Double.roundNE neg m (radix ^ (-x).toNat)

/-- Modelled from the spec: `strtod` is C library code that the source calls and
does not define.  The spec has the factor text converted to floating point, text
that is not numeric giving `0`; the model is `strtod(text, NULL)` of the C
standard in the C locale: leading white space, an optional sign, then a decimal
number, a hexadecimal number, `inf` / `infinity` or `nan`, any characters after
the longest such subject being ignored.  When the text has no such subject no
conversion is performed and the result is `0.0`.  The result is correctly
rounded; a value too large gives an infinity. -/
def strtod (text : String) : Double :=
  let sg := readSign (skipSpace text.toList)
  let body := sg.2
  if startsWithCI ['i', 'n', 'f'] body then Double.inf sg.1
  else if startsWithCI ['n', 'a', 'n'] body then Double.nan
  else
    let hex : Option (Nat × Int) :=
      match body with
      | z :: x :: rest => if z = '0' ∧ x.toLower = 'x' then readNumber 16 'p' rest else none
      | _ => none
    match hex with
    | some (m, x) => roundScaled sg.1 2 m x
    | none =>
      match readNumber 10 'e' body with
      | some (m, x) => roundScaled sg.1 10 m x
      | none => Double.zero

/-- A text with no numeric prefix: after white space and an optional sign there
is neither a decimal digit, nor a `.` followed by one, nor the start of `inf` or
`nan`. -/
def noNumericPrefix (text : String) : Bool :=
  match (readSign (skipSpace text.toList)).2 with
  | [] => true
  | c :: rest =>
    (digitVal 10 c).isNone
      && !(c = '.' && (match rest with
                       | [] => false
                       | d :: _ => (digitVal 10 d).isSome))
      && !(startsWithCI ['i', 'n', 'f'] (c :: rest))
      && !(startsWithCI ['n', 'a', 'n'] (c :: rest))

/-! ## Readings -/

/-- Modelled from the spec: the payload of a data point (`DatapointValue`, declared
in the FogLAMP headers and not in the source), a tagged union over Integer
(a 64-bit signed `long`), Float (a `double`), String, Array of values and Object
(names mapped to values). -/
inductive Value where
  | Integer (v : Int)
  | Float (v : Double)
  | String (s : String)
  | Array (items : List Value)
  | Object (members : List (String × Value))

/-- Modelled from the spec: the type tags of a data point value, one for each
variant (`DatapointValue::T_INTEGER`, `T_FLOAT` and the others). -/
inductive DatapointTag where
  | T_STRING
  | T_INTEGER
  | T_FLOAT
  | T_ARRAY
  | T_OBJECT
deriving DecidableEq

/-- Modelled from the spec: the tag of a value (`DatapointValue::getType`). -/
def Value.getType : Value → DatapointTag
  | Value.Integer _ => DatapointTag.T_INTEGER
  | Value.Float _ => DatapointTag.T_FLOAT
  | Value.String _ => DatapointTag.T_STRING
  | Value.Array _ => DatapointTag.T_ARRAY
  | Value.Object _ => DatapointTag.T_OBJECT

/-- Modelled from the spec: a data point (`Datapoint`), a name and a value
(`getData`). -/
structure Datapoint where
  name : String
  value : Value

/-- Modelled from the spec: a reading (`Reading`), named and timestamped, holding
an ordered sequence of data points (`getReadingData`) that it owns. -/
structure Reading where
  assetName : String
  timestamp : Nat
  datapoints : List Datapoint

/-- Modelled from the spec: a batch (`ReadingSet`), the ordered sequence of the
readings it owns (`getAllReadings`).  Ownership means that no reading or data
point occurs twice, so the in-place update of the source is an update of each
element of each sequence. -/
abbrev ReadingSet := List Reading

/-- The data point at position `j` of the reading at position `i`, if there is
one. -/
def datapointAt (rs : ReadingSet) (i j : Nat) : Option Datapoint :=
  match rs[i]? with
  | some r => r.datapoints[j]?
  | none => none

/-- Address of a reading set (`READINGSET *`). -/
abbrev Addr := Nat

/-- The reading sets in memory, by address. -/
abbrev Heap := Addr → ReadingSet

/-! ## The filter handle -/

/-- Modelled from the spec: the configuration category of the filter
(`ConfigCategory`, declared in the FogLAMP headers), whose items have a name and
a value kept as text. -/
structure ConfigCategory where
  items : List (String × String)

/-- Modelled from the spec: whether the category has an item of that name
(`ConfigCategory::itemExists`). -/
def ConfigCategory.itemExists (c : ConfigCategory) (name : String) : Bool :=
  (c.items.lookup name).isSome

/-- Modelled from the spec: the text of the item of that name
(`ConfigCategory::getValue`); the source asks for it only after `itemExists`. -/
def ConfigCategory.getValue (c : ConfigCategory) (name : String) : String :=
  (c.items.lookup name).getD ""

/-- Modelled from the spec: the handle of the filter (`FogLampFilter`, declared in
the FogLAMP headers): the enable switch, the configuration, the output handle
`m_data` and the output stream `m_func`, the last a function pointer that the
model keeps as an opaque identifier. -/
structure FogLampFilter where
  m_enabled : Bool
  m_config : ConfigCategory
  m_data : Nat
  m_func : Nat

/-- Modelled from the spec: whether the filter is switched on
(`FogLampFilter::isEnabled`). -/
def FogLampFilter.isEnabled (f : FogLampFilter) : Bool := f.m_enabled

/-- Modelled from the spec: the configuration of the filter
(`FogLampFilter::getConfig`). -/
def FogLampFilter.getConfig (f : FogLampFilter) : ConfigCategory := f.m_config

/-- One call of an output stream: `(*func)(handle, readingSet)`. -/
structure SinkCall where
  func : Nat
  handle : Nat
  readingSet : Addr
deriving DecidableEq

/-! ## `plugin_ingest` -/

/-- The text of the default scale factor. -/
def SCALE_FACTOR : String := "100.0"

/-- The scale factor of a call: the parsed text of the item `factor`, or of
`SCALE_FACTOR` when the configuration has no such item. -/
def scaleFactorOf (filter : FogLampFilter) : Double :=
  if filter.getConfig.itemExists "factor" then
    strtod (filter.getConfig.getValue "factor")
  else
    strtod SCALE_FACTOR

/-- Body of the inner loop: the change made to one data point value. -/
def scaleValue (indef : Double → Int) (scaleFactor : Double) : Value → Value
  | Value.Integer i =>
    Value.Integer (Double.toLong indef (Double.mul (Double.ofLong i) scaleFactor))
  | Value.Float f => Value.Float (Double.mul f scaleFactor)
  | v => v

/-- One step of the inner loop, on one data point. -/
def scaleDatapoint (indef : Double → Int) (scaleFactor : Double) (dp : Datapoint) :
    Datapoint :=
  { dp with value := scaleValue indef scaleFactor dp.value }

/-- One step of the outer loop: the inner loop over the data points of a reading. -/
def scaleReading (indef : Double → Int) (scaleFactor : Double) (r : Reading) :
    Reading :=
  { r with datapoints := r.datapoints.map (scaleDatapoint indef scaleFactor) }

/-- The outer loop over all readings of the reading set. -/
def scaleReadings (indef : Double → Int) (scaleFactor : Double) (rs : ReadingSet) :
    ReadingSet :=
  rs.map (scaleReading indef scaleFactor)

/-- The function `plugin_ingest(handle, readingSet)`: the memory after the call and
the calls of output streams it made, in order. -/
def plugin_ingest (indef : Double → Int) (filter : FogLampFilter) (readingSet : Addr)
    (heap : Heap) : Heap × List SinkCall :=
  if !filter.isEnabled then
    (heap, [⟨filter.m_func, filter.m_data, readingSet⟩])
  else
    let scaleFactor := scaleFactorOf filter
    let heap1 := Function.update heap readingSet
      (scaleReadings indef scaleFactor (heap readingSet))
    (heap1, [⟨filter.m_func, filter.m_data, readingSet⟩])

/-- Whether scaling a value by `f` loses nothing that scaling by `f * f` keeps:
for a Float the products `x * f` (when `x` is finite) and `f * f` are not
rounded; for an Integer the product `(double)v * f` is not rounded and is an
integer that fits a `long`, and `f * f` is not rounded.  Other values are not
scaled. -/
def squaresExactly (f : Double) : Value → Bool
  | Value.Integer v =>
    Double.exactProduct (Double.ofLong v) f
      && Double.isLongValued (Double.mul (Double.ofLong v) f)
      && Double.exactProduct f f
  | Value.Float x => (!x.isFinite || Double.exactProduct x f) && Double.exactProduct f f
  | _ => true

/-- Whether the round trip `(long)(double)v` of an Integer value is defined;
other values have none to make. -/
def castDefinedAt : Value → Bool
  | Value.Integer v => Double.longCastDefined (Double.ofLong v)
  | _ => true

/-! ## Concrete inputs -/

/-- What the x86-64 conversion instruction yields for a NaN or an out-of-range
operand: the "integer indefinite" value `-2 ^ 63`. -/
def x86Indefinite : Double → Int := fun _ => -2 ^ 63

/-- A filter handle with the given enable switch and configuration items. -/
def filterWith (enabled : Bool) (items : List (String × String)) : FogLampFilter :=
  { m_enabled := enabled, m_config := { items := items }, m_data := 7, m_func := 9 }

/-- A memory holding the given reading set at address `0` and nothing elsewhere. -/
def heapWith (rs : ReadingSet) : Heap :=
  fun a => if a = 0 then rs else []

/-- A reading set of one reading with one data point. -/
def single (v : Value) : ReadingSet :=
  [{ assetName := "temp", timestamp := 1, datapoints := [{ name := "value", value := v }] }]

/-- The batch of the scenario: an integer temperature and a textual flag. -/
def scenarioBatch : ReadingSet :=
  [{ assetName := "temp", timestamp := 1,
     datapoints := [{ name := "value", value := Value.Integer 20 }] },
   { assetName := "flag", timestamp := 2,
     datapoints := [{ name := "active", value := Value.String "on" }] }]


/-! ## The traversal -/

theorem datapointAt_scaleReadings (indef : Double → Int) (f : Double) (rs : ReadingSet)
    (i j : Nat) :
    datapointAt (scaleReadings indef f rs) i j
      = (datapointAt rs i j).map (scaleDatapoint indef f) := by
  unfold datapointAt scaleReadings
  rw [List.getElem?_map]
  cases rs[i]? with
  | none => rfl
  | some r => simp [scaleReading, List.getElem?_map]

theorem plugin_ingest_enabled (indef : Double → Int) (filter : FogLampFilter)
    (readingSet : Addr) (heap : Heap) (hen : filter.isEnabled = true) :
    plugin_ingest indef filter readingSet heap
      = (Function.update heap readingSet
          (scaleReadings indef (scaleFactorOf filter) (heap readingSet)),
         [⟨filter.m_func, filter.m_data, readingSet⟩]) := by
  simp [plugin_ingest, hen]

theorem plugin_ingest_disabled (indef : Double → Int) (filter : FogLampFilter)
    (readingSet : Addr) (heap : Heap) (hen : filter.isEnabled = false) :
    plugin_ingest indef filter readingSet heap
      = (heap, [⟨filter.m_func, filter.m_data, readingSet⟩]) := by
  simp [plugin_ingest, hen]

theorem datapointAt_plugin_ingest (indef : Double → Int) (filter : FogLampFilter)
    (readingSet : Addr) (heap : Heap) (hen : filter.isEnabled = true) (i j : Nat) :
    datapointAt ((plugin_ingest indef filter readingSet heap).1 readingSet) i j
      = (datapointAt (heap readingSet) i j).map
          (scaleDatapoint indef (scaleFactorOf filter)) := by
  rw [plugin_ingest_enabled indef filter readingSet heap hen]
  simp [datapointAt_scaleReadings]

theorem plugin_ingest_batch (indef : Double → Int) (filter : FogLampFilter)
    (readingSet : Addr) (heap : Heap) (hen : filter.isEnabled = true) :
    (plugin_ingest indef filter readingSet heap).1 readingSet
      = scaleReadings indef (scaleFactorOf filter) (heap readingSet) := by
  simp [plugin_ingest_enabled indef filter readingSet heap hen]


/-! ## The cast to `long` truncates toward zero -/

theorem scale2_snd_pos (n d : Nat) (q : Int) (hd : 0 < d) : 0 < (Double.scale2 n d q).2 := by
  unfold Double.scale2
  split
  · exact Nat.mul_pos hd (Nat.pos_pow_of_pos _ (by decide))
  · exact hd

theorem truncate_eq_truncTowardZero (x : Double) (t : Int)
    (h : Double.truncate x = some t) : t = truncTowardZero x.toRat := by
  cases x with
  | nan => simp [Double.truncate] at h
  | inf s => simp [Double.truncate] at h
  | fin s k =>
    simp only [Double.truncate, Option.some.injEq] at h
    have hq : (0 : ℚ) ≤ ((Double.scale2 (Double.mant k.val) 1 (-(Double.expo k.val))).1 : ℚ)
        / ((Double.scale2 (Double.mant k.val) 1 (-(Double.expo k.val))).2 : ℚ) := by
      positivity
    cases s with
    | false =>
      simp only [Double.toRat, truncTowardZero, Bool.false_eq_true, if_false, if_pos hq]
      simp only [Bool.false_eq_true, if_false] at h
      rw [Rat.floor_natCast_div_natCast, ← h]
      norm_cast
    | true =>
      simp only [if_true] at h
      simp only [Double.toRat, truncTowardZero, if_true]
      by_cases hz : (0 : ℚ) ≤ -(((Double.scale2 (Double.mant k.val) 1 (-(Double.expo k.val))).1 : ℚ)
          / ((Double.scale2 (Double.mant k.val) 1 (-(Double.expo k.val))).2 : ℚ))
      · rw [if_pos hz, Int.floor_neg]
        have h0 : ((Double.scale2 (Double.mant k.val) 1 (-(Double.expo k.val))).1 : ℚ)
            / ((Double.scale2 (Double.mant k.val) 1 (-(Double.expo k.val))).2 : ℚ) = 0 := by
          linarith
        rw [h0] at hz ⊢
        have h1 : ⌊((Double.scale2 (Double.mant k.val) 1 (-(Double.expo k.val))).1 : ℚ)
            / ((Double.scale2 (Double.mant k.val) 1 (-(Double.expo k.val))).2 : ℚ)⌋ = 0 := by
          rw [h0]; simp
        rw [Rat.floor_natCast_div_natCast] at h1
        rw [← h]
        simp only [Int.ceil_zero, neg_zero]
        have h2 : (((Double.scale2 (Double.mant k.val) 1 (-(Double.expo k.val))).1
            / (Double.scale2 (Double.mant k.val) 1 (-(Double.expo k.val))).2 : Nat) : Int) = 0 := by
          exact_mod_cast h1
        rw [h2]; rfl
      · rw [if_neg hz, Int.ceil_neg, Rat.floor_natCast_div_natCast, ← h]
        norm_cast

theorem toLong_eq_truncTowardZero (indef : Double → Int) (x : Double)
    (hfin : x.isFinite = true) (hlo : -2 ^ 63 ≤ truncTowardZero x.toRat)
    (hhi : truncTowardZero x.toRat < 2 ^ 63) :
    Double.toLong indef x = truncTowardZero x.toRat := by
  cases x with
  | nan => simp [Double.isFinite] at hfin
  | inf s => simp [Double.isFinite] at hfin
  | fin s k =>
    have ht : ∃ t, Double.truncate (Double.fin s k) = some t := ⟨_, rfl⟩
    obtain ⟨t, ht⟩ := ht
    have he := truncate_eq_truncTowardZero _ t ht
    simp only [Double.toLong, ht]
    rw [← he] at hlo hhi ⊢
    rw [if_pos ⟨hlo, hhi⟩]


/-! ## Rounding -/

theorem log2Fuel_spec : ∀ (fuel n : Nat), 0 < n → n ≤ fuel →
    2 ^ Double.log2Fuel fuel n ≤ n ∧ n < 2 ^ (Double.log2Fuel fuel n + 1) := by
  intro fuel
  induction fuel with
  | zero => intro n h0 h1; omega
  | succ fuel ih =>
    intro n h0 h1
    unfold Double.log2Fuel
    by_cases h2 : n < 2
    · rw [if_pos h2]
      have : n = 1 := by omega
      subst this
      simp
    · rw [if_neg h2]
      obtain ⟨ha, hb⟩ := ih (n / 2) (by omega) (by omega)
      rw [pow_succ, pow_succ] at *
      constructor <;> omega

theorem log2_spec (n : Nat) (h : 0 < n) :
    2 ^ Double.log2 n ≤ n ∧ n < 2 ^ (Double.log2 n + 1) :=
  log2Fuel_spec n n h (le_refl n)

theorem scale2_cast (n d : Nat) (q : Int) :
    ((Double.scale2 n d q).1 : ℚ) / ((Double.scale2 n d q).2 : ℚ)
      = (n : ℚ) / ((d : ℚ) * (2 : ℚ) ^ q) := by
  unfold Double.scale2
  by_cases hq : 0 ≤ q
  · rw [if_pos hq]
    obtain ⟨a, rfl⟩ := Int.eq_ofNat_of_zero_le hq
    simp [zpow_natCast]
  · rw [if_neg hq]
    obtain ⟨a, ha⟩ := Int.eq_ofNat_of_zero_le (show 0 ≤ -q by omega)
    have hq2 : q = -(a : Int) := by omega
    subst hq2
    simp only [neg_neg, Int.toNat_ofNat, Nat.cast_mul, Nat.cast_pow, Nat.cast_ofNat, zpow_neg,
      zpow_natCast]
    field_simp

theorem zpow_two_pos (q : Int) : (0 : ℚ) < (2 : ℚ) ^ q :=
  zpow_pos (by norm_num) q

/-- The test of `ilog2`: the scaled denominator is at most the scaled numerator
exactly when `2 ^ q ≤ n / d`. -/
theorem scale2_le_iff (n d : Nat) (q : Int) (hd : 0 < d) :
    (Double.scale2 n d q).2 ≤ (Double.scale2 n d q).1 ↔ (2 : ℚ) ^ q ≤ (n : ℚ) / (d : ℚ) := by
  have hpos : (0 : ℚ) < ((Double.scale2 n d q).2 : ℚ) := by
    exact_mod_cast scale2_snd_pos n d q hd
  have hd' : (0 : ℚ) < (d : ℚ) := by exact_mod_cast hd
  have h2 := zpow_two_pos q
  have key := scale2_cast n d q
  constructor
  · intro h
    have h1 : (1 : ℚ) ≤ ((Double.scale2 n d q).1 : ℚ) / ((Double.scale2 n d q).2 : ℚ) := by
      rw [le_div_iff₀ hpos, one_mul]
      exact_mod_cast h
    rw [key, le_div_iff₀ (by positivity)] at h1
    rw [le_div_iff₀ hd']
    linarith
  · intro h
    have h1 : (1 : ℚ) ≤ ((Double.scale2 n d q).1 : ℚ) / ((Double.scale2 n d q).2 : ℚ) := by
      rw [key, le_div_iff₀ (by positivity)]
      rw [le_div_iff₀ hd'] at h
      linarith
    rw [le_div_iff₀ hpos, one_mul] at h1
    exact_mod_cast h1

theorem ilog2_spec (n d : Nat) (hn : 0 < n) (hd : 0 < d) :
    (2 : ℚ) ^ Double.ilog2 n d ≤ (n : ℚ) / (d : ℚ) ∧
      (n : ℚ) / (d : ℚ) < (2 : ℚ) ^ (Double.ilog2 n d + 1) := by
  obtain ⟨hn1, hn2⟩ := log2_spec n hn
  obtain ⟨hd1, hd2⟩ := log2_spec d hd
  have hd' : (0 : ℚ) < (d : ℚ) := by exact_mod_cast hd
  have hn1' : (2 : ℚ) ^ (Double.log2 n : Int) ≤ (n : ℚ) := by
    rw [zpow_natCast]; exact_mod_cast hn1
  have hn2' : (n : ℚ) < (2 : ℚ) ^ ((Double.log2 n : Int) + 1) := by
    have : ((Double.log2 n : Int) + 1) = ((Double.log2 n + 1 : Nat) : Int) := by norm_cast
    rw [this, zpow_natCast]; exact_mod_cast hn2
  have hd1' : (2 : ℚ) ^ (Double.log2 d : Int) ≤ (d : ℚ) := by
    rw [zpow_natCast]; exact_mod_cast hd1
  have hd2' : (d : ℚ) < (2 : ℚ) ^ ((Double.log2 d : Int) + 1) := by
    have : ((Double.log2 d : Int) + 1) = ((Double.log2 d + 1 : Nat) : Int) := by norm_cast
    rw [this, zpow_natCast]; exact_mod_cast hd2
  have hA := zpow_two_pos (Double.log2 n : Int)
  have hB := zpow_two_pos (Double.log2 d : Int)
  have e1 : (2 : ℚ) ^ ((Double.log2 n : Int) - (Double.log2 d : Int) + 1)
      = (2 : ℚ) ^ ((Double.log2 n : Int) + 1) / (2 : ℚ) ^ (Double.log2 d : Int) := by
    rw [← zpow_sub₀ (by norm_num)]; congr 1; ring
  have e2 : (2 : ℚ) ^ ((Double.log2 n : Int) - (Double.log2 d : Int) - 1)
      = (2 : ℚ) ^ (Double.log2 n : Int) / (2 : ℚ) ^ ((Double.log2 d : Int) + 1) := by
    rw [← zpow_sub₀ (by norm_num)]; congr 1; ring
  have up : (n : ℚ) / (d : ℚ)
      < (2 : ℚ) ^ ((Double.log2 n : Int) - (Double.log2 d : Int) + 1) := by
    rw [e1, div_lt_div_iff₀ hd' hB]
    nlinarith
  have lo : (2 : ℚ) ^ ((Double.log2 n : Int) - (Double.log2 d : Int) - 1)
      ≤ (n : ℚ) / (d : ℚ) := by
    rw [e2, div_le_div_iff₀ (zpow_two_pos _) hd']
    nlinarith
  unfold Double.ilog2
  simp only
  by_cases h : (Double.scale2 n d ((Double.log2 n : Int) - (Double.log2 d : Int))).2
      ≤ (Double.scale2 n d ((Double.log2 n : Int) - (Double.log2 d : Int))).1
  · rw [if_pos h]
    exact ⟨(scale2_le_iff n d _ hd).1 h, up⟩
  · rw [if_neg h]
    refine ⟨lo, ?_⟩
    rw [sub_add_cancel]
    exact lt_of_not_le (fun hc => h ((scale2_le_iff n d _ hd).2 hc))

theorem zpow_two_exponent_unique (x : ℚ) (a b : Int)
    (ha : (2 : ℚ) ^ a ≤ x) (ha2 : x < (2 : ℚ) ^ (a + 1))
    (hb : (2 : ℚ) ^ b ≤ x) (hb2 : x < (2 : ℚ) ^ (b + 1)) : a = b := by
  have h1 : (2 : ℚ) ^ a < (2 : ℚ) ^ (b + 1) := lt_of_le_of_lt ha hb2
  have h2 : (2 : ℚ) ^ b < (2 : ℚ) ^ (a + 1) := lt_of_le_of_lt hb ha2
  have h3 := (zpow_lt_zpow_iff_right₀ (by norm_num : (1 : ℚ) < 2)).1 h1
  have h4 := (zpow_lt_zpow_iff_right₀ (by norm_num : (1 : ℚ) < 2)).1 h2
  omega

theorem ilog2_eq (n d : Nat) (hn : 0 < n) (hd : 0 < d) (e : Int)
    (h1 : (2 : ℚ) ^ e ≤ (n : ℚ) / (d : ℚ)) (h2 : (n : ℚ) / (d : ℚ) < (2 : ℚ) ^ (e + 1)) :
    Double.ilog2 n d = e := by
  obtain ⟨a, b⟩ := ilog2_spec n d hn hd
  exact zpow_two_exponent_unique _ _ _ a b h1 h2

theorem decode_encode (k : Nat) :
    (Double.expo k + 1074).toNat * 2 ^ 52 + Double.mant k = k ∧ Double.mant k < 2 ^ 53 ∧
      -1074 ≤ Double.expo k ∧ (2 ^ 52 ≤ Double.mant k ∨ Double.expo k = -1074) := by
  unfold Double.expo Double.mant
  by_cases h : k / 2 ^ 52 = 0
  · rw [if_pos h]
    norm_num at h ⊢
    omega
  · rw [if_neg h]
    norm_num at h ⊢
    omega

theorem encode_decode (m : Nat) (q : Int) (hq : -1074 ≤ q) (hm : m < 2 ^ 53)
    (hnorm : 2 ^ 52 ≤ m ∨ q = -1074) :
    Double.mant ((q + 1074).toNat * 2 ^ 52 + m) = m ∧
      Double.expo ((q + 1074).toNat * 2 ^ 52 + m) = q := by
  unfold Double.expo Double.mant
  norm_num at hm hnorm ⊢
  by_cases h : ((q + 1074).toNat * 4503599627370496 + m) / 4503599627370496 = 0
  · rw [if_pos h]
    omega
  · rw [if_neg h]
    omega

theorem roundNE_exact (neg : Bool) (n d m : Nat) (q : Int) (hn : 0 < n) (hd : 0 < d)
    (hval : (n : ℚ) / (d : ℚ) = (m : ℚ) * (2 : ℚ) ^ q) (hq : -1074 ≤ q) (hm : m < 2 ^ 53)
    (hnorm : 2 ^ 52 ≤ m ∨ q = -1074) :
    Double.roundNE neg n d = Double.ofBits neg ((q + 1074).toNat * 2 ^ 52 + m) := by
  have hm' : (m : ℚ) < (2 : ℚ) ^ (53 : Int) := by
    rw [show ((53 : Int)) = ((53 : Nat) : Int) from rfl, zpow_natCast]; exact_mod_cast hm
  have h2q := zpow_two_pos q
  have hexp : max (Double.ilog2 n d) (-1022) = q + 52 := by
    by_cases h : 2 ^ 52 ≤ m
    · have h' : (2 : ℚ) ^ (52 : Int) ≤ (m : ℚ) := by
        rw [show ((52 : Int)) = ((52 : Nat) : Int) from rfl, zpow_natCast]; exact_mod_cast h
      have e1 : Double.ilog2 n d = q + 52 := by
        apply ilog2_eq n d hn hd
        · rw [hval, add_comm, zpow_add₀ (by norm_num)]
          exact mul_le_mul_of_nonneg_right h' (le_of_lt h2q)
        · rw [hval, show q + 52 + 1 = 53 + q by ring, zpow_add₀ (by norm_num)]
          exact mul_lt_mul_of_pos_right hm' h2q
      rw [e1]
      omega
    · have hq2 : q = -1074 := by
        rcases hnorm with h1 | h1
        · exact absurd h1 h
        · exact h1
      have hm2 : (m : ℚ) < (2 : ℚ) ^ (52 : Int) := by
        rw [show ((52 : Int)) = ((52 : Nat) : Int) from rfl, zpow_natCast]
        exact_mod_cast (not_le.1 h)
      obtain ⟨a, _⟩ := ilog2_spec n d hn hd
      have hsmall : (n : ℚ) / (d : ℚ) < (2 : ℚ) ^ (-1022 : Int) := by
        rw [hval, hq2, show (-1022 : Int) = 52 + (-1074) by norm_num, zpow_add₀ (by norm_num)]
        exact mul_lt_mul_of_pos_right hm2 (zpow_two_pos _)
      have hlt := (zpow_lt_zpow_iff_right₀ (by norm_num : (1 : ℚ) < 2)).1
        (lt_of_le_of_lt a hsmall)
      omega
  have hs2 : 0 < (Double.scale2 n d q).2 := scale2_snd_pos n d q hd
  have hd' : (0 : ℚ) < (d : ℚ) := by exact_mod_cast hd
  have hs1 : (Double.scale2 n d q).1 = m * (Double.scale2 n d q).2 := by
    have key := scale2_cast n d q
    have hs2' : (0 : ℚ) < ((Double.scale2 n d q).2 : ℚ) := by exact_mod_cast hs2
    have e : ((Double.scale2 n d q).1 : ℚ) / ((Double.scale2 n d q).2 : ℚ) = (m : ℚ) := by
      rw [key, ← div_div, hval]
      field_simp
    rw [div_eq_iff (ne_of_gt hs2')] at e
    exact_mod_cast e
  have hmpos : 0 < m := by
    rcases Nat.eq_zero_or_pos m with h0 | h0
    · exfalso
      rw [h0] at hval
      simp only [Nat.cast_zero, zero_mul] at hval
      have hn' : (0 : ℚ) < (n : ℚ) := by exact_mod_cast hn
      have : (0 : ℚ) < (n : ℚ) / (d : ℚ) := div_pos hn' hd'
      linarith
    · exact h0
  unfold Double.roundNE
  rw [if_neg (by omega)]
  simp only [hexp, show q + 52 - 52 = q by ring, show q + 52 + 1022 = q + 1074 by ring]
  rw [hs1, Nat.mul_div_cancel _ hs2, Nat.mul_mod_left]
  have hc : ¬ ((Double.scale2 n d q).2 < 2 * 0 ∨
      (2 * 0 = (Double.scale2 n d q).2 ∧ m % 2 = 1)) := by
    omega
  rw [if_neg hc]

theorem scale2_fst_pos (n d : Nat) (q : Int) (hn : 0 < n) : 0 < (Double.scale2 n d q).1 := by
  unfold Double.scale2
  split
  · exact hn
  · exact Nat.mul_pos hn (Nat.pos_pow_of_pos _ (by decide))

theorem scale2_fst_zero (d : Nat) (q : Int) : (Double.scale2 0 d q).1 = 0 := by
  unfold Double.scale2
  split <;> simp

theorem mant_pos (k : Nat) (hk : k ≠ 0) : 0 < Double.mant k := by
  unfold Double.mant
  by_cases h : k / 2 ^ 52 = 0
  · rw [if_pos h]
    norm_num at h ⊢
    omega
  · rw [if_neg h]
    norm_num

theorem ofBits_fin (neg : Bool) (k : Fin FINITE_BOUND) :
    Double.ofBits neg k.val = Double.fin neg k := by
  unfold Double.ofBits
  rw [dif_pos k.isLt]

theorem ofBits_of_lt (neg : Bool) (k : Nat) (h : k < FINITE_BOUND) :
    Double.ofBits neg k = Double.fin neg ⟨k, h⟩ := by
  unfold Double.ofBits
  rw [dif_pos h]

/-- Rounding the exact value of a double gives that double. -/
theorem roundNE_value (neg : Bool) (n d : Nat) (k : Fin FINITE_BOUND)
    (hn : 0 < n) (hd : 0 < d)
    (hval : (n : ℚ) / (d : ℚ) = (Double.mant k.val : ℚ) * (2 : ℚ) ^ Double.expo k.val) :
    Double.roundNE neg n d = Double.fin neg k := by
  obtain ⟨h1, h2, h3, h4⟩ := decode_encode k.val
  rw [roundNE_exact neg n d _ _ hn hd hval h3 h2 h4, h1, ofBits_fin]

theorem mul_one (x : Double) : Double.mul x Double.one = x := by
  have hone : Double.one = Double.fin false ⟨0x3FF0000000000000, by decide⟩ := by decide
  rw [hone]
  cases x with
  | nan => rfl
  | inf s => simp [Double.mul]
  | fin s k =>
    have hm1 : Double.mant 0x3FF0000000000000 = 2 ^ 52 := by decide
    have he1 : Double.expo 0x3FF0000000000000 = -52 := by decide
    simp only [Double.mul, Bool.xor_false, hm1, he1]
    by_cases hk : k.val = 0
    · have hm0 : Double.mant k.val = 0 := by rw [hk]; decide
      rw [hm0, Nat.zero_mul, scale2_fst_zero]
      have : k = ⟨0, by decide⟩ := Fin.ext hk
      rw [this]
      rfl
    · apply roundNE_value s _ _ k
      · exact scale2_fst_pos _ _ _ (Nat.mul_pos (mant_pos _ hk) (by norm_num))
      · exact scale2_snd_pos _ _ _ (by norm_num)
      · rw [scale2_cast]
        have h2 := zpow_two_pos (Double.expo k.val)
        have e : (2 : ℚ) ^ (-(Double.expo k.val + -52))
            = (2 : ℚ) ^ (52 : Nat) / (2 : ℚ) ^ Double.expo k.val := by
          rw [neg_add, neg_neg, zpow_add₀ (by norm_num), zpow_neg]
          rw [show ((52 : Int)) = ((52 : Nat) : Int) from rfl, zpow_natCast]
          field_simp
        rw [e]
        push_cast
        field_simp
        ring

/-- The significand that `roundNE` divides out is below `2 ^ 53`. -/
theorem roundNE_quotient_lt (n d : Nat) (hn : 0 < n) (hd : 0 < d) :
    (Double.scale2 n d (max (Double.ilog2 n d) (-1022) - 52)).1
      / (Double.scale2 n d (max (Double.ilog2 n d) (-1022) - 52)).2 < 2 ^ 53 := by
  obtain ⟨_, hb⟩ := ilog2_spec n d hn hd
  have hs2 := scale2_snd_pos n d (max (Double.ilog2 n d) (-1022) - 52) hd
  have hs2' : (0 : ℚ)
      < ((Double.scale2 n d (max (Double.ilog2 n d) (-1022) - 52)).2 : ℚ) := by
    exact_mod_cast hs2
  have hd' : (0 : ℚ) < (d : ℚ) := by exact_mod_cast hd
  have key := scale2_cast n d (max (Double.ilog2 n d) (-1022) - 52)
  have hle : (2 : ℚ) ^ (Double.ilog2 n d + 1)
      ≤ (2 : ℚ) ^ (max (Double.ilog2 n d) (-1022) + 1) :=
    zpow_le_zpow_right₀ (by norm_num) (by omega)
  have hlt : (n : ℚ) / (d : ℚ) < (2 : ℚ) ^ (max (Double.ilog2 n d) (-1022) + 1) :=
    lt_of_lt_of_le hb hle
  have e : (2 : ℚ) ^ (max (Double.ilog2 n d) (-1022) + 1)
      = (2 : ℚ) ^ (53 : Nat) * (2 : ℚ) ^ (max (Double.ilog2 n d) (-1022) - 52) := by
    rw [← zpow_natCast, ← zpow_add₀ (by norm_num)]; congr 1; push_cast; ring
  have hq : ((Double.scale2 n d (max (Double.ilog2 n d) (-1022) - 52)).1 : ℚ)
      / ((Double.scale2 n d (max (Double.ilog2 n d) (-1022) - 52)).2 : ℚ)
      < (2 : ℚ) ^ (53 : Nat) := by
    rw [key, ← div_div, div_lt_iff₀ (zpow_two_pos _), ← e]
    exact hlt
  rw [div_lt_iff₀ hs2'] at hq
  rw [Nat.div_lt_iff_lt_mul hs2]
  exact_mod_cast hq

theorem ofLong_finite (v : Int) (hv : v.natAbs < 2 ^ 64) :
    ∃ k : Fin FINITE_BOUND, Double.ofLong v = Double.fin (decide (v < 0)) k := by
  unfold Double.ofLong Double.roundNE
  by_cases h0 : v.natAbs = 0
  · rw [if_pos h0]
    exact ⟨⟨0, by decide⟩, rfl⟩
  · rw [if_neg h0]
    have hpos : 0 < v.natAbs := Nat.pos_of_ne_zero h0
    have hq := roundNE_quotient_lt v.natAbs 1 hpos (by decide)
    obtain ⟨ha, _⟩ := ilog2_spec v.natAbs 1 hpos (by decide)
    have hv' : ((v.natAbs : ℚ)) / ((1 : Nat) : ℚ) < (2 : ℚ) ^ (64 : Int) := by
      rw [show ((64 : Int)) = ((64 : Nat) : Int) from rfl, zpow_natCast]
      simp only [Nat.cast_one, div_one]
      exact_mod_cast hv
    have hlt := (zpow_lt_zpow_iff_right₀ (by norm_num : (1 : ℚ) < 2)).1
      (lt_of_le_of_lt ha hv')
    simp only
    generalize (Double.scale2 v.natAbs 1 (max (Double.ilog2 v.natAbs 1) (-1022) - 52)).1
      / (Double.scale2 v.natAbs 1 (max (Double.ilog2 v.natAbs 1) (-1022) - 52)).2 = m at hq ⊢
    generalize (Double.scale2 v.natAbs 1 (max (Double.ilog2 v.natAbs 1) (-1022) - 52)).1
      % (Double.scale2 v.natAbs 1 (max (Double.ilog2 v.natAbs 1) (-1022) - 52)).2 = r
    generalize (Double.scale2 v.natAbs 1 (max (Double.ilog2 v.natAbs 1) (-1022) - 52)).2 = s2
    have hb : ∀ m1 : Nat, m1 ≤ m + 1 →
        (max (Double.ilog2 v.natAbs 1) (-1022) + 1022).toNat * 2 ^ 52 + m1 < FINITE_BOUND := by
      intro m1 hm1
      unfold FINITE_BOUND
      norm_num at hq ⊢
      omega
    split_ifs with hc
    · exact ⟨_, ofBits_of_lt _ _ (hb _ (le_refl _))⟩
    · exact ⟨_, ofBits_of_lt _ _ (hb _ (Nat.le_succ _))⟩

theorem mul_zero_fin (s : Bool) (k : Fin FINITE_BOUND) :
    Double.mul (Double.fin s k) Double.zero = Double.fin s ⟨0, by decide⟩ := by
  have hz : Double.zero = Double.fin false ⟨0, by decide⟩ := by decide
  have hm0 : Double.mant 0 = 0 := by decide
  rw [hz]
  simp only [Double.mul, hm0, Nat.mul_zero, scale2_fst_zero, Bool.xor_false]
  rfl

theorem mul_zero_not_finite (x : Double) (hx : x.isFinite = false) :
    Double.mul x Double.zero = Double.nan := by
  have hz : Double.zero = Double.fin false ⟨0, by decide⟩ := by decide
  rw [hz]
  cases x with
  | nan => rfl
  | inf s => simp [Double.mul]
  | fin s k => simp [Double.isFinite] at hx

theorem toLong_mul_zero (indef : Double → Int) (v : Int) (hv : v.natAbs < 2 ^ 64) :
    Double.toLong indef (Double.mul (Double.ofLong v) Double.zero) = 0 := by
  obtain ⟨k, hk⟩ := ofLong_finite v hv
  rw [hk, mul_zero_fin]
  have ht : Double.truncate (Double.fin (decide (v < 0)) ⟨0, by decide⟩) = some 0 := by
    cases decide (v < 0) <;> decide
  unfold Double.toLong
  rw [ht]
  simp

theorem toRat_fin (s : Bool) (k : Fin FINITE_BOUND) :
    (Double.fin s k).toRat
      = (if s then -1 else 1) * ((Double.mant k.val : ℚ) * (2 : ℚ) ^ Double.expo k.val) := by
  have h := scale2_cast (Double.mant k.val) 1 (-(Double.expo k.val))
  have e : (2 : ℚ) ^ (-(Double.expo k.val)) = ((2 : ℚ) ^ Double.expo k.val)⁻¹ := zpow_neg _ _
  simp only [Double.toRat, h, e, Nat.cast_one, one_mul, div_inv_eq_mul]
  cases s <;> simp

theorem mant_eq_zero (k : Nat) (h : Double.mant k = 0) : k = 0 := by
  by_contra hk
  have := mant_pos k hk
  omega

/-- When the exact product of two finite doubles is the value of a double, the
product of the doubles is that double. -/
theorem mul_exact (s t : Bool) (k l z : Fin FINITE_BOUND)
    (h : (Double.mant k.val : ℚ) * (2 : ℚ) ^ Double.expo k.val
        * ((Double.mant l.val : ℚ) * (2 : ℚ) ^ Double.expo l.val)
      = (Double.mant z.val : ℚ) * (2 : ℚ) ^ Double.expo z.val) :
    Double.mul (Double.fin s k) (Double.fin t l) = Double.fin (xor s t) z := by
  simp only [Double.mul]
  have hk2 := zpow_two_pos (Double.expo k.val)
  have hl2 := zpow_two_pos (Double.expo l.val)
  have hz2 := zpow_two_pos (Double.expo z.val)
  rcases Nat.eq_zero_or_pos (Double.mant k.val * Double.mant l.val) with h0 | hpos
  · have hz : z.val = 0 := by
      apply mant_eq_zero
      have h0' : (Double.mant k.val : ℚ) * (Double.mant l.val : ℚ) = 0 := by exact_mod_cast h0
      have : (Double.mant z.val : ℚ) * (2 : ℚ) ^ Double.expo z.val = 0 := by
        rw [← h]
        calc (Double.mant k.val : ℚ) * (2 : ℚ) ^ Double.expo k.val
              * ((Double.mant l.val : ℚ) * (2 : ℚ) ^ Double.expo l.val)
            = ((Double.mant k.val : ℚ) * (Double.mant l.val : ℚ))
              * ((2 : ℚ) ^ Double.expo k.val * (2 : ℚ) ^ Double.expo l.val) := by ring
          _ = 0 := by rw [h0', zero_mul]
      have hm : (Double.mant z.val : ℚ) = 0 := by
        rcases mul_eq_zero.1 this with h1 | h1
        · exact h1
        · exact absurd h1 (ne_of_gt hz2)
      exact_mod_cast hm
    rw [h0, scale2_fst_zero]
    have : z = ⟨0, by decide⟩ := Fin.ext hz
    rw [this]
    rfl
  · apply roundNE_value
    · exact scale2_fst_pos _ _ _ hpos
    · exact scale2_snd_pos _ _ _ (by norm_num)
    · rw [scale2_cast, ← h]
      have e : (2 : ℚ) ^ (-(Double.expo k.val + Double.expo l.val))
          = ((2 : ℚ) ^ Double.expo k.val * (2 : ℚ) ^ Double.expo l.val)⁻¹ := by
        rw [zpow_neg, zpow_add₀ (by norm_num)]
      rw [e]
      push_cast
      field_simp
      ring

/-- When the exact product of two finite doubles is not zero and is the value of
the finite double `z`, the product of the doubles is `z`. -/
theorem mul_eq_of_toRat (x f z : Double) (hx : x.isFinite = true) (hf : f.isFinite = true)
    (hz : z.isFinite = true) (hval : z.toRat = x.toRat * f.toRat) (hne : z.toRat ≠ 0) :
    Double.mul x f = z := by
  cases x with
  | nan => simp [Double.isFinite] at hx
  | inf _ => simp [Double.isFinite] at hx
  | fin s k =>
  cases f with
  | nan => simp [Double.isFinite] at hf
  | inf _ => simp [Double.isFinite] at hf
  | fin t l =>
  cases z with
  | nan => simp [Double.isFinite] at hz
  | inf _ => simp [Double.isFinite] at hz
  | fin u w =>
  rw [toRat_fin, toRat_fin, toRat_fin] at hval
  rw [toRat_fin] at hne
  have hk : (0 : ℚ) ≤ (Double.mant k.val : ℚ) * (2 : ℚ) ^ Double.expo k.val :=
    mul_nonneg (Nat.cast_nonneg _) (le_of_lt (zpow_two_pos _))
  have hl : (0 : ℚ) ≤ (Double.mant l.val : ℚ) * (2 : ℚ) ^ Double.expo l.val :=
    mul_nonneg (Nat.cast_nonneg _) (le_of_lt (zpow_two_pos _))
  have hw : (0 : ℚ) ≤ (Double.mant w.val : ℚ) * (2 : ℚ) ^ Double.expo w.val :=
    mul_nonneg (Nat.cast_nonneg _) (le_of_lt (zpow_two_pos _))
  have hkl := mul_nonneg hk hl
  generalize ha : (Double.mant k.val : ℚ) * (2 : ℚ) ^ Double.expo k.val = a at *
  generalize hb : (Double.mant l.val : ℚ) * (2 : ℚ) ^ Double.expo l.val = b at *
  generalize hc : (Double.mant w.val : ℚ) * (2 : ℚ) ^ Double.expo w.val = c at *
  have hmag : a * b = c ∧ u = xor s t := by
    cases s <;> cases t <;> cases u <;> simp at hval hne ⊢ <;>
      first
        | exact hval.symm
        | (exfalso; apply hne; nlinarith)
  obtain ⟨h1, h2⟩ := hmag
  rw [h2]
  apply mul_exact
  rw [ha, hb, hc]
  exact h1

/-- A fraction that is exactly a double rounds to a finite double of that value. -/
theorem roundNE_exact_toRat (neg : Bool) (n d m : Nat) (q : Int) (hn : 0 < n) (hd : 0 < d)
    (hval : (n : ℚ) / (d : ℚ) = (m : ℚ) * (2 : ℚ) ^ q) (hq : -1074 ≤ q) (hm : m < 2 ^ 53)
    (hnorm : 2 ^ 52 ≤ m ∨ q = -1074)
    (hb : (q + 1074).toNat * 2 ^ 52 + m < FINITE_BOUND) :
    (Double.roundNE neg n d).isFinite = true ∧
      (Double.roundNE neg n d).toRat = (if neg then -1 else 1) * ((n : ℚ) / (d : ℚ)) := by
  obtain ⟨h1, h2⟩ := encode_decode m q hq hm hnorm
  rw [roundNE_exact neg n d m q hn hd hval hq hm hnorm, ofBits_of_lt _ _ hb]
  refine ⟨rfl, ?_⟩
  rw [toRat_fin]
  simp only [h1, h2, hval]

theorem signed_natAbs (v : Int) :
    (if decide (v < 0) = true then (-1 : ℚ) else 1) * ((v.natAbs : ℚ) / ((1 : Nat) : ℚ))
      = (v : ℚ) := by
  rcases Int.eq_nat_or_neg v with ⟨n, rfl | rfl⟩
  · simp
  · rcases Nat.eq_zero_or_pos n with h0 | hpos
    · subst h0; simp
    · have : (-(n : Int)) < 0 := by omega
      simp [this]

/-- Every integer of magnitude at most `2 ^ 53` converts to `double` exactly. -/
theorem ofLong_exact (v : Int) (hv : v.natAbs ≤ 2 ^ 53) :
    (Double.ofLong v).isFinite = true ∧ (Double.ofLong v).toRat = (v : ℚ) := by
  rcases Nat.eq_zero_or_pos v.natAbs with h0 | hpos
  · have : v = 0 := Int.natAbs_eq_zero.1 h0
    subst this
    have e : Double.ofLong 0 = Double.fin false ⟨0, by decide⟩ := by decide
    have hm0 : Double.mant 0 = 0 := by decide
    rw [e]
    refine ⟨rfl, ?_⟩
    rw [toRat_fin]
    simp [hm0]
  rw [← signed_natAbs v]
  unfold Double.ofLong
  rcases Nat.lt_or_ge v.natAbs (2 ^ 53) with hlt | hge
  · obtain ⟨hl1, hl2⟩ := log2_spec v.natAbs hpos
    have he : Double.log2 v.natAbs < 53 :=
      (Nat.pow_lt_pow_iff_right (by decide : 1 < 2)).1 (lt_of_le_of_lt hl1 hlt)
    have hsplit : 2 ^ 52 = 2 ^ Double.log2 v.natAbs * 2 ^ (52 - Double.log2 v.natAbs) := by
      rw [← pow_add]; congr 1; omega
    have hsplit1 : 2 ^ 53
        = 2 ^ (Double.log2 v.natAbs + 1) * 2 ^ (52 - Double.log2 v.natAbs) := by
      rw [← pow_add]; congr 1; omega
    have hp : 0 < 2 ^ (52 - Double.log2 v.natAbs) := Nat.pos_pow_of_pos _ (by decide)
    have hm1 : 2 ^ 52 ≤ v.natAbs * 2 ^ (52 - Double.log2 v.natAbs) := by
      rw [hsplit]; exact Nat.mul_le_mul_right _ hl1
    have hm2 : v.natAbs * 2 ^ (52 - Double.log2 v.natAbs) < 2 ^ 53 := by
      rw [hsplit1]; exact Nat.mul_lt_mul_of_pos_right hl2 hp
    have hval : ((v.natAbs : ℚ)) / ((1 : Nat) : ℚ)
        = ((v.natAbs * 2 ^ (52 - Double.log2 v.natAbs) : Nat) : ℚ)
          * (2 : ℚ) ^ ((Double.log2 v.natAbs : Int) - 52) := by
      have e : (2 : ℚ) ^ ((Double.log2 v.natAbs : Int) - 52)
          = ((2 : ℚ) ^ (52 - Double.log2 v.natAbs))⁻¹ := by
        rw [← zpow_natCast, ← zpow_neg]; congr 1; omega
      rw [e]
      push_cast
      field_simp
    have hb : ((Double.log2 v.natAbs : Int) - 52 + 1074).toNat * 2 ^ 52
        + v.natAbs * 2 ^ (52 - Double.log2 v.natAbs) < FINITE_BOUND := by
      unfold FINITE_BOUND
      norm_num at hm2 ⊢
      omega
    exact roundNE_exact_toRat (decide (v < 0)) v.natAbs 1 _ _ hpos (by decide) hval
      (by omega) hm2 (Or.inl hm1) hb
  · have hn : v.natAbs = 2 ^ 53 := le_antisymm hv hge
    rw [hn]
    exact roundNE_exact_toRat (decide (v < 0)) (2 ^ 53) 1 (2 ^ 52) 1 (by norm_num)
      (by decide) (by norm_num) (by norm_num) (by norm_num) (Or.inl (le_refl _)) (by decide)

theorem truncTowardZero_intCast (v : Int) : truncTowardZero (v : ℚ) = v := by
  unfold truncTowardZero
  split <;> simp

/-- The round trip `(long)(double)v` gives `v` back when `v` converts exactly. -/
theorem toLong_ofLong (indef : Double → Int) (v : Int) (h : exactAsDouble v) :
    Double.toLong indef (Double.ofLong v) = v := by
  obtain ⟨hlo, hhi, hfin, hval⟩ := h
  rw [toLong_eq_truncTowardZero indef _ hfin, hval, truncTowardZero_intCast]
  · rw [hval, truncTowardZero_intCast]; exact hlo
  · rw [hval, truncTowardZero_intCast]; exact hhi

theorem exactAsDouble_of_small (v : Int) (hv : v.natAbs ≤ 2 ^ 53) : exactAsDouble v := by
  obtain ⟨h1, h2⟩ := ofLong_exact v hv
  refine ⟨?_, ?_, h1, h2⟩
  · norm_num at hv ⊢
    omega
  · norm_num at hv ⊢
    omega

/-! ## Text without a number -/

theorem readNumber_none (c : Char) (rest : List Char) (hc : digitVal 10 c = none)
    (hdot : c = '.' → ∀ d rest1, rest = d :: rest1 → digitVal 10 d = none) :
    readNumber 10 'e' (c :: rest) = none := by
  unfold readNumber
  have h1 : readDigits 10 (c :: rest) 0 0 = (0, 0, c :: rest) := by
    simp [readDigits, hc]
  simp only [h1]
  by_cases hd : c = '.'
  · rw [if_pos hd]
    cases rest with
    | nil => simp [readDigits]
    | cons d rest1 =>
      have h2 := hdot hd d rest1 rfl
      simp [readDigits, h2]
  · rw [if_neg hd]
    simp

theorem strtod_noNumericPrefix (text : String) (h : noNumericPrefix text = true) :
    strtod text = Double.zero := by
  unfold noNumericPrefix at h
  unfold strtod
  generalize (readSign (skipSpace text.toList)) = sg at h ⊢
  obtain ⟨neg, body⟩ := sg
  simp only at h ⊢
  cases body with
  | nil => simp [startsWithCI, readNumber, readDigits]
  | cons c rest =>
    simp only [Bool.and_eq_true, Bool.not_eq_true', Option.isNone_iff_eq_none] at h
    obtain ⟨⟨⟨hc, hdot⟩, hinf⟩, hnan⟩ := h
    have hnum : readNumber 10 'e' (c :: rest) = none := by
      apply readNumber_none c rest hc
      intro hd d rest1 hr
      subst hr
      simp [hd] at hdot
      exact hdot
    have hhex : (match c :: rest with
        | z :: x :: rest1 =>
          if z = '0' ∧ x.toLower = 'x' then readNumber 16 'p' rest1 else none
        | _ => none) = none := by
      cases rest with
      | nil => rfl
      | cons x rest1 =>
        have hz : c ≠ '0' := by
          intro hz
          rw [hz] at hc
          simp [digitVal] at hc
        simp [hz]
    rw [hinf, hnan]
    simp only [Bool.false_eq_true, if_false]
    rw [hhex, hnum]

/-! ## Products without rounding -/

/-- The quotient and the rounding decision of `roundNE` depend on the fraction
only. -/
theorem round_decision (a b : Nat) (hb : 0 < b) :
    ((a / b : Nat) : ℚ) = ((⌊(a : ℚ) / (b : ℚ)⌋₊ : Nat) : ℚ) ∧
      (b < 2 * (a % b) ↔ (1 : ℚ) < 2 * ((a : ℚ) / (b : ℚ) - ((a / b : Nat) : ℚ))) ∧
      (2 * (a % b) = b ↔ 2 * ((a : ℚ) / (b : ℚ) - ((a / b : Nat) : ℚ)) = 1) := by
  have hb' : (0 : ℚ) < (b : ℚ) := by exact_mod_cast hb
  have hdm : (a : ℚ) = (b : ℚ) * ((a / b : Nat) : ℚ) + ((a % b : Nat) : ℚ) := by
    exact_mod_cast (Nat.div_add_mod a b).symm
  have hfrac : (a : ℚ) / (b : ℚ) - ((a / b : Nat) : ℚ) = ((a % b : Nat) : ℚ) / (b : ℚ) := by
    rw [hdm]
    field_simp
  refine ⟨?_, ?_, ?_⟩
  · rw [Nat.floor_div_eq_div]
  · rw [hfrac, ← mul_div_assoc, lt_div_iff₀ hb', one_mul]
    constructor
    · intro h; exact_mod_cast h
    · intro h; exact_mod_cast h
  · rw [hfrac, ← mul_div_assoc, div_eq_iff (ne_of_gt hb'), one_mul]
    constructor
    · intro h; exact_mod_cast h
    · intro h; exact_mod_cast h

theorem ilog2_congr (n d n1 d1 : Nat) (hn : 0 < n) (hd : 0 < d) (hn1 : 0 < n1) (hd1 : 0 < d1)
    (h : (n : ℚ) / (d : ℚ) = (n1 : ℚ) / (d1 : ℚ)) :
    Double.ilog2 n d = Double.ilog2 n1 d1 := by
  obtain ⟨a, b⟩ := ilog2_spec n1 d1 hn1 hd1
  rw [← h] at a b
  exact ilog2_eq n d hn hd _ a b

/-- Rounding depends on the value of the fraction only, not on how it is written. -/
theorem roundNE_congr (neg : Bool) (n d n1 d1 : Nat) (hd : 0 < d) (hd1 : 0 < d1)
    (h : (n : ℚ) / (d : ℚ) = (n1 : ℚ) / (d1 : ℚ)) :
    Double.roundNE neg n d = Double.roundNE neg n1 d1 := by
  have hd' : (0 : ℚ) < (d : ℚ) := by exact_mod_cast hd
  have hd1' : (0 : ℚ) < (d1 : ℚ) := by exact_mod_cast hd1
  have hzero : n = 0 ↔ n1 = 0 := by
    constructor
    · intro h0
      rw [h0] at h
      simp only [Nat.cast_zero, zero_div] at h
      have := (div_eq_zero_iff.1 h.symm).resolve_right (ne_of_gt hd1')
      exact_mod_cast this
    · intro h0
      rw [h0] at h
      simp only [Nat.cast_zero, zero_div] at h
      have := (div_eq_zero_iff.1 h).resolve_right (ne_of_gt hd')
      exact_mod_cast this
  unfold Double.roundNE
  by_cases h0 : n = 0
  · rw [if_pos h0, if_pos (hzero.1 h0)]
  · have h1 : n1 ≠ 0 := fun hc => h0 (hzero.2 hc)
    rw [if_neg h0, if_neg h1]
    have hlog := ilog2_congr n d n1 d1 (Nat.pos_of_ne_zero h0) hd (Nat.pos_of_ne_zero h1) hd1 h
    simp only [hlog]
    generalize max (Double.ilog2 n1 d1) (-1022) = e
    have hs := scale2_snd_pos n d (e - 52) hd
    have hs1 := scale2_snd_pos n1 d1 (e - 52) hd1
    have hfr : ((Double.scale2 n d (e - 52)).1 : ℚ) / ((Double.scale2 n d (e - 52)).2 : ℚ)
        = ((Double.scale2 n1 d1 (e - 52)).1 : ℚ) / ((Double.scale2 n1 d1 (e - 52)).2 : ℚ) := by
      rw [scale2_cast, scale2_cast, ← div_div, ← div_div, h]
    obtain ⟨a1, a2, a3⟩ := round_decision _ _ hs
    obtain ⟨b1, b2, b3⟩ := round_decision _ _ hs1
    have hm : (Double.scale2 n d (e - 52)).1 / (Double.scale2 n d (e - 52)).2
        = (Double.scale2 n1 d1 (e - 52)).1 / (Double.scale2 n1 d1 (e - 52)).2 := by
      have : (((Double.scale2 n d (e - 52)).1 / (Double.scale2 n d (e - 52)).2 : Nat) : ℚ)
          = (((Double.scale2 n1 d1 (e - 52)).1 / (Double.scale2 n1 d1 (e - 52)).2 : Nat) : ℚ) := by
        rw [a1, b1, hfr]
      exact_mod_cast this
    have hup : ((Double.scale2 n d (e - 52)).2 < 2 * ((Double.scale2 n d (e - 52)).1
          % (Double.scale2 n d (e - 52)).2)) ↔
        ((Double.scale2 n1 d1 (e - 52)).2 < 2 * ((Double.scale2 n1 d1 (e - 52)).1
          % (Double.scale2 n1 d1 (e - 52)).2)) := by
      rw [a2, b2, hfr, hm]
    have htie : (2 * ((Double.scale2 n d (e - 52)).1 % (Double.scale2 n d (e - 52)).2)
          = (Double.scale2 n d (e - 52)).2) ↔
        (2 * ((Double.scale2 n1 d1 (e - 52)).1 % (Double.scale2 n1 d1 (e - 52)).2)
          = (Double.scale2 n1 d1 (e - 52)).2) := by
      rw [a3, b3, hfr, hm]
    rw [hm]
    simp only [hup, htie]

theorem ofBits_sign (neg u : Bool) (K : Nat) (w : Fin FINITE_BOUND)
    (h : Double.ofBits neg K = Double.fin u w) : u = neg := by
  unfold Double.ofBits at h
  by_cases hK : K < FINITE_BOUND
  · rw [dif_pos hK] at h
    injection h with h1 _
    exact h1.symm
  · rw [dif_neg hK] at h
    cases h

theorem roundNE_eq_ofBits (neg : Bool) (n d : Nat) :
    ∃ K, Double.roundNE neg n d = Double.ofBits neg K := by
  unfold Double.roundNE
  by_cases h : n = 0
  · rw [if_pos h]; exact ⟨_, rfl⟩
  · rw [if_neg h]; exact ⟨_, rfl⟩

theorem roundNE_sign (neg u : Bool) (n d : Nat) (w : Fin FINITE_BOUND)
    (h : Double.roundNE neg n d = Double.fin u w) : u = neg := by
  obtain ⟨K, hK⟩ := roundNE_eq_ofBits neg n d
  rw [hK] at h
  exact ofBits_sign _ _ _ _ h

/-- The magnitude of a finite double, as a rational. -/
theorem scale2_mant_cast (k l : Nat) :
    ((Double.scale2 (Double.mant k * Double.mant l) 1
        (-(Double.expo k + Double.expo l))).1 : ℚ)
      / ((Double.scale2 (Double.mant k * Double.mant l) 1
        (-(Double.expo k + Double.expo l))).2 : ℚ)
      = (Double.mant k : ℚ) * (2 : ℚ) ^ Double.expo k
        * ((Double.mant l : ℚ) * (2 : ℚ) ^ Double.expo l) := by
  rw [scale2_cast]
  have hk := zpow_two_pos (Double.expo k)
  have hl := zpow_two_pos (Double.expo l)
  have e : (2 : ℚ) ^ (-(Double.expo k + Double.expo l))
      = ((2 : ℚ) ^ Double.expo k * (2 : ℚ) ^ Double.expo l)⁻¹ := by
    rw [zpow_neg, zpow_add₀ (by norm_num)]
  rw [e]
  push_cast
  field_simp
  ring

theorem scale2_mant_cast_one (k : Nat) :
    ((Double.scale2 (Double.mant k) 1 (-(Double.expo k))).1 : ℚ)
      / ((Double.scale2 (Double.mant k) 1 (-(Double.expo k))).2 : ℚ)
      = (Double.mant k : ℚ) * (2 : ℚ) ^ Double.expo k := by
  rw [scale2_cast]
  have hk := zpow_two_pos (Double.expo k)
  rw [zpow_neg]
  field_simp

/-- What `exactProduct` says: the operands are finite and the product is the
finite double whose magnitude is the product of the magnitudes. -/
theorem exactProduct_spec (x f : Double) (h : Double.exactProduct x f = true) :
    ∃ (s t : Bool) (k l z : Fin FINITE_BOUND), x = Double.fin s k ∧ f = Double.fin t l ∧
      Double.mul x f = Double.fin (xor s t) z ∧
      (Double.mant z.val : ℚ) * (2 : ℚ) ^ Double.expo z.val
        = (Double.mant k.val : ℚ) * (2 : ℚ) ^ Double.expo k.val
          * ((Double.mant l.val : ℚ) * (2 : ℚ) ^ Double.expo l.val) := by
  cases x with
  | nan => simp [Double.exactProduct] at h
  | inf _ => simp [Double.exactProduct] at h
  | fin s k =>
  cases f with
  | nan => simp [Double.exactProduct] at h
  | inf _ => simp [Double.exactProduct] at h
  | fin t l =>
  cases hm : Double.mul (Double.fin s k) (Double.fin t l) with
  | nan => simp [Double.exactProduct, hm] at h
  | inf _ => simp [Double.exactProduct, hm] at h
  | fin u z =>
    have hu : u = xor s t := by
      simp only [Double.mul] at hm
      exact roundNE_sign _ _ _ _ _ hm
    subst hu
    refine ⟨s, t, k, l, z, rfl, rfl, rfl, ?_⟩
    simp only [Double.exactProduct, hm, decide_eq_true_eq] at h
    have hp2 := scale2_snd_pos (Double.mant k.val * Double.mant l.val) 1
      (-(Double.expo k.val + Double.expo l.val)) (by decide)
    have hr2 := scale2_snd_pos (Double.mant z.val) 1 (-(Double.expo z.val)) (by decide)
    have hp2' : (0 : ℚ) < ((Double.scale2 (Double.mant k.val * Double.mant l.val) 1
        (-(Double.expo k.val + Double.expo l.val))).2 : ℚ) := by exact_mod_cast hp2
    have hr2' : (0 : ℚ) < ((Double.scale2 (Double.mant z.val) 1
        (-(Double.expo z.val))).2 : ℚ) := by exact_mod_cast hr2
    rw [← scale2_mant_cast, ← scale2_mant_cast_one, div_eq_div_iff (ne_of_gt hr2') (ne_of_gt hp2')]
    have h' : (((Double.scale2 (Double.mant k.val * Double.mant l.val) 1
        (-(Double.expo k.val + Double.expo l.val))).1
          * (Double.scale2 (Double.mant z.val) 1 (-(Double.expo z.val))).2 : Nat) : ℚ)
        = (((Double.scale2 (Double.mant z.val) 1 (-(Double.expo z.val))).1
          * (Double.scale2 (Double.mant k.val * Double.mant l.val) 1
            (-(Double.expo k.val + Double.expo l.val))).2 : Nat) : ℚ) := by
      rw [h]
    push_cast at h'
    linarith

theorem mul_fin_congr (s t s1 t1 : Bool) (k l k1 l1 : Fin FINITE_BOUND)
    (hs : xor s t = xor s1 t1)
    (h : (Double.mant k.val : ℚ) * (2 : ℚ) ^ Double.expo k.val
          * ((Double.mant l.val : ℚ) * (2 : ℚ) ^ Double.expo l.val)
        = (Double.mant k1.val : ℚ) * (2 : ℚ) ^ Double.expo k1.val
          * ((Double.mant l1.val : ℚ) * (2 : ℚ) ^ Double.expo l1.val)) :
    Double.mul (Double.fin s k) (Double.fin t l)
      = Double.mul (Double.fin s1 k1) (Double.fin t1 l1) := by
  simp only [Double.mul, hs]
  apply roundNE_congr
  · exact scale2_snd_pos _ _ _ (by decide)
  · exact scale2_snd_pos _ _ _ (by decide)
  · rw [scale2_mant_cast, scale2_mant_cast, h]

/-- Two multiplications by `f` give what one multiplication by `f * f` gives when
neither `x * f` nor `f * f` is rounded. -/
theorem mul_mul_exact (x f : Double) (h1 : Double.exactProduct x f = true)
    (h2 : Double.exactProduct f f = true) :
    Double.mul (Double.mul x f) f = Double.mul x (Double.mul f f) := by
  obtain ⟨s, t, k, l, z, hx, hf, hm, hz⟩ := exactProduct_spec x f h1
  obtain ⟨t1, t2, l1, l2, y, hf1, hf2, hm2, hy⟩ := exactProduct_spec f f h2
  rw [hm, hm2]
  subst hx
  rw [hf] at hf1 hf2
  cases hf1
  cases hf2
  rw [hf]
  apply mul_fin_congr
  · cases s <;> cases t <;> rfl
  · rw [hz, hy]; ring

/-! ## The cast, where it is defined and where it is not -/

theorem longCastDefined_spec (x : Double) (h : Double.longCastDefined x = true) :
    ∃ t : Int, Double.truncate x = some t ∧ -2 ^ 63 ≤ t ∧ t < 2 ^ 63 := by
  unfold Double.longCastDefined at h
  cases ht : Double.truncate x with
  | none => simp [ht] at h
  | some t =>
    simp only [ht, decide_eq_true_eq] at h
    exact ⟨t, rfl, h.1, h.2⟩

theorem toLong_of_defined (indef : Double → Int) (x : Double)
    (h : Double.longCastDefined x = true) :
    Double.toLong indef x = truncTowardZero x.toRat := by
  obtain ⟨t, ht, hlo, hhi⟩ := longCastDefined_spec x h
  have he := truncate_eq_truncTowardZero x t ht
  unfold Double.toLong
  rw [ht]
  simp only [if_pos (And.intro hlo hhi)]
  exact he

theorem toLong_of_undefined (indef : Double → Int) (x : Double)
    (h : Double.longCastDefined x = false) :
    Double.toLong indef x = indef x := by
  unfold Double.longCastDefined at h
  unfold Double.toLong
  cases ht : Double.truncate x with
  | none => rfl
  | some t =>
    simp only [ht, decide_eq_false_iff_not] at h
    simp only [if_neg h]

theorem toLong_eq_of_truncate (indef : Double → Int) (x : Double) (t : Int)
    (ht : Double.truncate x = some t) (hlo : -2 ^ 63 ≤ t) (hhi : t < 2 ^ 63) :
    Double.toLong indef x = t := by
  unfold Double.toLong
  rw [ht]
  simp only [if_pos (And.intro hlo hhi)]

theorem toLong_signed_zero (indef : Double → Int) (s : Bool) :
    Double.toLong indef (Double.fin s ⟨0, by decide⟩) = 0 := by
  have ht : Double.truncate (Double.fin s ⟨0, by decide⟩) = some 0 := by
    cases s <;> decide
  exact toLong_eq_of_truncate indef _ 0 ht (by norm_num) (by norm_num)

theorem mul_zero_left (s t : Bool) (l : Fin FINITE_BOUND) :
    Double.mul (Double.fin s ⟨0, by decide⟩) (Double.fin t l)
      = Double.fin (xor s t) ⟨0, by decide⟩ := by
  have hm0 : Double.mant 0 = 0 := by decide
  simp only [Double.mul, hm0, Nat.zero_mul, scale2_fst_zero]
  rfl

/-- What `isLongValued` says: the double is finite, its value is an integer in
the range of `long`, and the cast gives that integer. -/
theorem isLongValued_spec (x : Double) (h : Double.isLongValued x = true) :
    ∃ (s : Bool) (k : Fin FINITE_BOUND) (N : Nat), x = Double.fin s k ∧
      Double.truncate x = some (if s then -(N : Int) else (N : Int)) ∧
      -2 ^ 63 ≤ (if s then -(N : Int) else (N : Int)) ∧
      (if s then -(N : Int) else (N : Int)) < 2 ^ 63 ∧
      (N : ℚ) = (Double.mant k.val : ℚ) * (2 : ℚ) ^ Double.expo k.val := by
  cases x with
  | nan => simp [Double.isLongValued] at h
  | inf _ => simp [Double.isLongValued] at h
  | fin s k =>
    simp only [Double.isLongValued, Bool.and_eq_true, decide_eq_true_eq] at h
    obtain ⟨hdiv, hdef⟩ := h
    obtain ⟨t, ht, hlo, hhi⟩ := longCastDefined_spec _ hdef
    simp only [Double.truncate, Option.some.injEq] at ht
    refine ⟨s, k, (Double.scale2 (Double.mant k.val) 1 (-(Double.expo k.val))).1
      / (Double.scale2 (Double.mant k.val) 1 (-(Double.expo k.val))).2, rfl, ?_, ?_, ?_, ?_⟩
    · simp only [Double.truncate]
    · rw [ht]; exact hlo
    · rw [ht]; exact hhi
    · rw [← scale2_mant_cast_one]
      have hp := scale2_snd_pos (Double.mant k.val) 1 (-(Double.expo k.val)) (by decide)
      rw [Nat.cast_div (Nat.dvd_of_mod_eq_zero hdiv)]
      exact_mod_cast (ne_of_gt hp)

/-- For integers: two calls with `f` give what one call with `f * f` gives when
the first product is not rounded and is an integer that fits a `long`, and
`f * f` is not rounded. -/
theorem toLong_twice_exact (indef : Double → Int) (v : Int) (f : Double)
    (h1 : Double.exactProduct (Double.ofLong v) f = true)
    (h2 : Double.isLongValued (Double.mul (Double.ofLong v) f) = true)
    (h3 : Double.exactProduct f f = true) :
    Double.toLong indef
        (Double.mul (Double.ofLong (Double.toLong indef (Double.mul (Double.ofLong v) f))) f)
      = Double.toLong indef (Double.mul (Double.ofLong v) (Double.mul f f)) := by
  rw [← mul_mul_exact (Double.ofLong v) f h1 h3]
  obtain ⟨s, k, N, ha, ht, hlo, hhi, hN⟩ := isLongValued_spec _ h2
  obtain ⟨_, t, _, l, _, _, hf, _, _⟩ := exactProduct_spec f f h3
  rw [toLong_eq_of_truncate indef _ _ ht hlo hhi, ha, hf]
  rcases Nat.eq_zero_or_pos N with h0 | hpos
  · subst h0
    have hk : k.val = 0 := by
      apply mant_eq_zero
      have h2p := zpow_two_pos (Double.expo k.val)
      simp only [Nat.cast_zero] at hN
      rcases mul_eq_zero.1 hN.symm with hz | hz
      · exact_mod_cast hz
      · exact absurd hz (ne_of_gt h2p)
    have hk' : k = ⟨0, by decide⟩ := Fin.ext hk
    have h00 : Double.ofLong (if s = true then -((0 : Nat) : Int) else ((0 : Nat) : Int))
        = Double.fin false ⟨0, by decide⟩ := by
      cases s <;> decide
    rw [h00, hk', mul_zero_left, mul_zero_left, toLong_signed_zero, toLong_signed_zero]
  · have hsgn : decide ((if s = true then -(N : Int) else (N : Int)) < 0) = s := by
      cases s
      · simp
      · simp only [if_true, decide_eq_true_eq]; omega
    have hab : (if s = true then -(N : Int) else (N : Int)).natAbs = N := by
      cases s <;> simp
    have hw : Double.ofLong (if s = true then -(N : Int) else (N : Int)) = Double.fin s k := by
      unfold Double.ofLong
      rw [hsgn, hab]
      apply roundNE_value s N 1 k hpos (by decide)
      rw [← hN]
      simp
    rw [hw]

/-- The integer part of a double converts back to `double` exactly. -/
theorem exactAsDouble_truncate (x : Double) (t : Int) (ht : Double.truncate x = some t)
    (hlo : -2 ^ 63 ≤ t) (hhi : t < 2 ^ 63) : exactAsDouble t := by
  by_cases hsmall : t.natAbs ≤ 2 ^ 53
  · exact exactAsDouble_of_small t hsmall
  cases x with
  | nan => simp [Double.truncate] at ht
  | inf _ => simp [Double.truncate] at ht
  | fin s k =>
    simp only [Double.truncate, Option.some.injEq] at ht
    obtain ⟨h1, h2, h3, h4⟩ := decode_encode k.val
    have hb : (Double.expo k.val + 1074).toNat * 2 ^ 52 + Double.mant k.val < FINITE_BOUND := by
      rw [h1]; exact k.isLt
    have hexp : 0 < Double.expo k.val := by
      by_contra hc
      apply hsmall
      have hle : (Double.scale2 (Double.mant k.val) 1 (-(Double.expo k.val))).1
          / (Double.scale2 (Double.mant k.val) 1 (-(Double.expo k.val))).2
          ≤ Double.mant k.val := by
        unfold Double.scale2
        rw [if_pos (by omega)]
        exact Nat.div_le_self _ _
      generalize (Double.scale2 (Double.mant k.val) 1 (-(Double.expo k.val))).1
          / (Double.scale2 (Double.mant k.val) 1 (-(Double.expo k.val))).2 = N at ht hle
      have hab : t.natAbs = N := by
        rw [← ht]
        cases s <;> simp
      omega
    have hs : Double.scale2 (Double.mant k.val) 1 (-(Double.expo k.val))
        = (Double.mant k.val * 2 ^ (Double.expo k.val).toNat, 1) := by
      unfold Double.scale2
      rw [if_neg (by omega), neg_neg]
    rw [hs] at ht
    simp only [Nat.div_one] at ht
    have hab : t.natAbs = Double.mant k.val * 2 ^ (Double.expo k.val).toNat := by
      generalize Double.mant k.val * 2 ^ (Double.expo k.val).toNat = N at ht
      rw [← ht]
      cases s <;> simp
    have hpos : 0 < t.natAbs := by
      have : (0 : Nat) < 2 ^ 53 := by norm_num
      omega
    have hval : (t.natAbs : ℚ) / ((1 : Nat) : ℚ)
        = (Double.mant k.val : ℚ) * (2 : ℚ) ^ Double.expo k.val := by
      rw [hab]
      push_cast
      rw [div_one, ← zpow_natCast, Int.toNat_of_nonneg (le_of_lt hexp)]
    obtain ⟨r1, r2⟩ := roundNE_exact_toRat (decide (t < 0)) t.natAbs 1 (Double.mant k.val)
      (Double.expo k.val) hpos (by decide) hval h3 h2 h4 hb
    refine ⟨hlo, hhi, r1, ?_⟩
    show (Double.roundNE (decide (t < 0)) t.natAbs 1).toRat = (t : ℚ)
    rw [r2, signed_natAbs]

/-- The round trip `(long)(double)w` gives `w` back when `w` is itself the result
of a defined cast. -/
theorem toLong_ofLong_toLong (indef : Double → Int) (x : Double)
    (h : Double.longCastDefined x = true) :
    Double.toLong indef (Double.ofLong (Double.toLong indef x)) = Double.toLong indef x := by
  obtain ⟨t, ht, hlo, hhi⟩ := longCastDefined_spec x h
  rw [toLong_eq_of_truncate indef x t ht hlo hhi]
  exact toLong_ofLong indef t (exactAsDouble_truncate x t ht hlo hhi)

theorem exactProduct_toRat (x f : Double) (h : Double.exactProduct x f = true) :
    (Double.mul x f).toRat = x.toRat * f.toRat := by
  obtain ⟨s, t, k, l, z, hx, hf, hm, hz⟩ := exactProduct_spec x f h
  rw [hm, hx, hf, toRat_fin, toRat_fin, toRat_fin, hz]
  cases s <;> cases t <;> simp

/-- For an infinite or NaN `x`, two multiplications by `f` give what one
multiplication by `f * f` gives when `f * f` is not rounded. -/
theorem mul_mul_not_finite (x f : Double) (hx : x.isFinite = false)
    (h2 : Double.exactProduct f f = true) :
    Double.mul (Double.mul x f) f = Double.mul x (Double.mul f f) := by
  obtain ⟨t, t1, l, l1, y, hf, hf1, hm, hy⟩ := exactProduct_spec f f h2
  rw [hf] at hf1
  cases hf1
  rw [hm, hf]
  cases x with
  | fin s k => simp [Double.isFinite] at hx
  | nan => simp [Double.mul]
  | inf s =>
    by_cases hl : l.val = 0
    · have hm0 : Double.mant l.val = 0 := by rw [hl]; decide
      have hy0 : y.val = 0 := by
        apply mant_eq_zero
        rw [hm0] at hy
        simp only [Nat.cast_zero, zero_mul, mul_zero] at hy
        rcases mul_eq_zero.1 hy with hz | hz
        · exact_mod_cast hz
        · exact absurd hz (ne_of_gt (zpow_two_pos _))
      simp [Double.mul, hl, hy0]
    · have hy0 : y.val ≠ 0 := by
        intro hc
        have hm0 : Double.mant y.val = 0 := by rw [hc]; decide
        rw [hm0] at hy
        simp only [Nat.cast_zero, zero_mul] at hy
        have hpos : (0 : ℚ) < (Double.mant l.val : ℚ) * (2 : ℚ) ^ Double.expo l.val :=
          mul_pos (by exact_mod_cast mant_pos _ hl) (zpow_two_pos _)
        have := mul_pos hpos hpos
        linarith
      simp [Double.mul, hl, hy0]

/-! ## The scaling of a reading set -/

/-- C1, as the code has it: with the filter enabled, a data point holding
`Integer v` holds afterwards `Integer ((long)((double)v * scaleFactor))`, at the
same position and under the same name.  Where the cast is defined (the double
product is finite and its integer part fits a `long`) it is the truncation
toward zero of the double product, and of the exact product `v × f` when neither
the conversion of `v` nor the product is rounded; where it is not defined the
value is what the platform's conversion yields. -/
theorem plugin_ingest_integer (indef : Double → Int) (filter : FogLampFilter)
    (readingSet : Addr) (heap : Heap) (i j : Nat) (dp : Datapoint) (v : Int)
    (hen : filter.isEnabled = true)
    (hdp : datapointAt (heap readingSet) i j = some dp)
    (hv : dp.value = Value.Integer v) :
    datapointAt ((plugin_ingest indef filter readingSet heap).1 readingSet) i j
        = some { name := dp.name,
                 value := Value.Integer
                   (Double.toLong indef
                     (Double.mul (Double.ofLong v) (scaleFactorOf filter))) } ∧
      (Double.longCastDefined (Double.mul (Double.ofLong v) (scaleFactorOf filter)) = true →
        Double.toLong indef (Double.mul (Double.ofLong v) (scaleFactorOf filter))
          = truncTowardZero
              (Double.mul (Double.ofLong v) (scaleFactorOf filter)).toRat) ∧
      (Double.longCastDefined (Double.mul (Double.ofLong v) (scaleFactorOf filter)) = true →
        exactAsDouble v →
        Double.exactProduct (Double.ofLong v) (scaleFactorOf filter) = true →
        Double.toLong indef (Double.mul (Double.ofLong v) (scaleFactorOf filter))
          = truncTowardZero ((v : ℚ) * (scaleFactorOf filter).toRat)) ∧
      (Double.longCastDefined (Double.mul (Double.ofLong v) (scaleFactorOf filter)) = false →
        Double.toLong indef (Double.mul (Double.ofLong v) (scaleFactorOf filter))
          = indef (Double.mul (Double.ofLong v) (scaleFactorOf filter))) := by
  refine ⟨?_, toLong_of_defined indef _, ?_, toLong_of_undefined indef _⟩
  · rw [plugin_ingest_batch indef filter readingSet heap hen, datapointAt_scaleReadings, hdp]
    simp [scaleDatapoint, scaleValue, hv]
  · intro hdef hex hprod
    rw [toLong_of_defined indef _ hdef, exactProduct_toRat _ _ hprod, hex.2.2.2]

/-- C1, the examples: `Integer(7)` with factor `100.0` gives `Integer(700)`,
`Integer(-7)` with factor `1.5` gives `Integer(-10)`, and in the scenario batch
`Integer(20)` with factor `100.0` gives `Integer(2000)` while the String data
point stays as it is; `-10` is the exact product `-7 × 1.5` truncated toward
zero. -/
theorem plugin_ingest_integer_examples :
    datapointAt ((plugin_ingest x86Indefinite (filterWith true [("factor", "100.0")]) 0
        (heapWith (single (Value.Integer 7)))).1 0) 0 0
      = some { name := "value", value := Value.Integer 700 } ∧
    datapointAt ((plugin_ingest x86Indefinite (filterWith true [("factor", "1.5")]) 0
        (heapWith (single (Value.Integer (-7))))).1 0) 0 0
      = some { name := "value", value := Value.Integer (-10) } ∧
    datapointAt ((plugin_ingest x86Indefinite (filterWith true [("factor", "100.0")]) 0
        (heapWith scenarioBatch)).1 0) 0 0
      = some { name := "value", value := Value.Integer 2000 } ∧
    (plugin_ingest x86Indefinite (filterWith true [("factor", "100.0")]) 0
        (heapWith scenarioBatch)).1 0
      = [{ assetName := "temp", timestamp := 1,
           datapoints := [{ name := "value", value := Value.Integer 2000 }] },
         { assetName := "flag", timestamp := 2,
           datapoints := [{ name := "active", value := Value.String "on" }] }] ∧
    truncTowardZero
        ((-7 : ℚ) * (scaleFactorOf (filterWith true [("factor", "1.5")])).toRat) = -10 := by
  refine ⟨?_, ?_, ?_, ?_, ?_⟩
  · have h := (plugin_ingest_integer x86Indefinite (filterWith true [("factor", "100.0")]) 0
      (heapWith (single (Value.Integer 7))) 0 0 ⟨"value", Value.Integer 7⟩ 7 rfl rfl rfl).1
    have e : Double.toLong x86Indefinite
        (Double.mul (Double.ofLong 7) (scaleFactorOf (filterWith true [("factor", "100.0")])))
        = 700 := by decide
    rw [e] at h
    exact h
  · have h := (plugin_ingest_integer x86Indefinite (filterWith true [("factor", "1.5")]) 0
      (heapWith (single (Value.Integer (-7)))) 0 0 ⟨"value", Value.Integer (-7)⟩ (-7)
      rfl rfl rfl).1
    have e : Double.toLong x86Indefinite
        (Double.mul (Double.ofLong (-7)) (scaleFactorOf (filterWith true [("factor", "1.5")])))
        = -10 := by decide
    rw [e] at h
    exact h
  · have h := (plugin_ingest_integer x86Indefinite (filterWith true [("factor", "100.0")]) 0
      (heapWith scenarioBatch) 0 0 ⟨"value", Value.Integer 20⟩ 20 rfl rfl rfl).1
    have e : Double.toLong x86Indefinite
        (Double.mul (Double.ofLong 20) (scaleFactorOf (filterWith true [("factor", "100.0")])))
        = 2000 := by decide
    rw [e] at h
    exact h
  · rw [plugin_ingest_batch x86Indefinite (filterWith true [("factor", "100.0")]) 0
      (heapWith scenarioBatch) rfl]
    have e : Double.toLong x86Indefinite
        (Double.mul (Double.ofLong 20) (scaleFactorOf (filterWith true [("factor", "100.0")])))
        = 2000 := by decide
    simp only [heapWith, scenarioBatch, if_true, scaleReadings, scaleReading, scaleDatapoint,
      scaleValue, List.map_cons, List.map_nil, e]
  · have h := (plugin_ingest_integer x86Indefinite (filterWith true [("factor", "1.5")]) 0
      (heapWith (single (Value.Integer (-7)))) 0 0 ⟨"value", Value.Integer (-7)⟩ (-7)
      rfl rfl rfl).2.2.1 (by decide) (exactAsDouble_of_small (-7) (by decide)) (by decide)
    have e : Double.toLong x86Indefinite
        (Double.mul (Double.ofLong (-7)) (scaleFactorOf (filterWith true [("factor", "1.5")])))
        = -10 := by decide
    rw [e] at h
    have hc : (((-7 : Int) : ℚ)) = (-7 : ℚ) := by norm_num
    rw [hc] at h
    exact h.symm

/-- C1 fails when the product does not fit a `long`: with the default factor
`100.0`, `Integer(10 ^ 17)` has the finite double product `10 ^ 19`, which is
its own truncation and is above `2 ^ 63 - 1`; the cast is then undefined, and
with the x86-64 conversion the data point becomes `Integer(-2 ^ 63)`. -/
theorem plugin_ingest_integer_overflow :
    scaleFactorOf (filterWith true []) = Double.hundred ∧
    (Double.mul (Double.ofLong 100000000000000000)
        (scaleFactorOf (filterWith true []))).isFinite = true ∧
    truncTowardZero (Double.mul (Double.ofLong 100000000000000000)
        (scaleFactorOf (filterWith true []))).toRat = 10000000000000000000 ∧
    datapointAt ((plugin_ingest x86Indefinite (filterWith true []) 0
        (heapWith (single (Value.Integer 100000000000000000)))).1 0) 0 0
      = some { name := "value", value := Value.Integer (-9223372036854775808) } := by
  refine ⟨by decide, by decide, ?_, ?_⟩
  · exact (truncate_eq_truncTowardZero _ _ (by decide)).symm
  · rw [datapointAt_plugin_ingest x86Indefinite (filterWith true []) 0
      (heapWith (single (Value.Integer 100000000000000000))) rfl]
    have e : Double.toLong x86Indefinite (Double.mul (Double.ofLong 100000000000000000)
        (scaleFactorOf (filterWith true []))) = -9223372036854775808 := by decide
    simp only [heapWith, single, datapointAt, if_true, List.getElem?_cons_zero,
      Option.map_some', scaleDatapoint, scaleValue, e]

/-- C2: with the filter enabled, a data point holding `Float x` holds afterwards
`Float (x * scaleFactor)`, the product of the two doubles, at the same position
and under the same name; the value is still a `Float`.  The product of doubles
is the exact product whenever that is a double other than zero. -/
theorem plugin_ingest_float (indef : Double → Int) (filter : FogLampFilter)
    (readingSet : Addr) (heap : Heap) (i j : Nat) (dp : Datapoint) (x : Double)
    (hen : filter.isEnabled = true)
    (hdp : datapointAt (heap readingSet) i j = some dp)
    (hv : dp.value = Value.Float x) :
    datapointAt ((plugin_ingest indef filter readingSet heap).1 readingSet) i j
        = some { name := dp.name,
                 value := Value.Float (Double.mul x (scaleFactorOf filter)) } ∧
      (∀ z : Double, x.isFinite = true → (scaleFactorOf filter).isFinite = true →
        z.isFinite = true → z.toRat = x.toRat * (scaleFactorOf filter).toRat →
        z.toRat ≠ 0 → Double.mul x (scaleFactorOf filter) = z) := by
  refine ⟨?_, fun z hx hf hz hval hne => mul_eq_of_toRat x _ z hx hf hz hval hne⟩
  rw [plugin_ingest_batch indef filter readingSet heap hen, datapointAt_scaleReadings, hdp]
  simp [scaleDatapoint, scaleValue, hv]

/-- C2, the example: `Float(2.5)` with factor `0.5` gives `Float(1.25)`. -/
theorem plugin_ingest_float_example :
    datapointAt ((plugin_ingest x86Indefinite (filterWith true [("factor", "0.5")]) 0
        (heapWith (single (Value.Float (strtod "2.5"))))).1 0) 0 0
      = some { name := "value", value := Value.Float (strtod "1.25") } := by
  have h := (plugin_ingest_float x86Indefinite (filterWith true [("factor", "0.5")]) 0
    (heapWith (single (Value.Float (strtod "2.5")))) 0 0 ⟨"value", Value.Float (strtod "2.5")⟩
    (strtod "2.5") rfl rfl rfl).1
  have e : Double.mul (strtod "2.5") (scaleFactorOf (filterWith true [("factor", "0.5")]))
      = strtod "1.25" := by decide
  rw [e] at h
  exact h

/-- C3: whatever the factor and whether the filter is enabled or not, a data point
whose value is a String, an Array or an Object is the same after the call as
before, with everything nested in it. -/
theorem plugin_ingest_other_unchanged (indef : Double → Int) (filter : FogLampFilter)
    (readingSet : Addr) (heap : Heap) (i j : Nat) (dp : Datapoint)
    (hdp : datapointAt (heap readingSet) i j = some dp)
    (hv : dp.value.getType ≠ DatapointTag.T_INTEGER ∧
      dp.value.getType ≠ DatapointTag.T_FLOAT) :
    datapointAt ((plugin_ingest indef filter readingSet heap).1 readingSet) i j
        = some dp := by
  cases hen : filter.isEnabled with
  | false => rw [plugin_ingest_disabled indef filter readingSet heap hen]; exact hdp
  | true =>
    rw [plugin_ingest_batch indef filter readingSet heap hen, datapointAt_scaleReadings, hdp]
    obtain ⟨nm, val⟩ := dp
    cases val <;> simp_all [scaleDatapoint, scaleValue, Value.getType]

/-- C3, an instance: an array holding `Integer(20)` and `Float(2.5)` comes out of
an enabled filter with factor `100.0` as it went in. -/
theorem plugin_ingest_other_unchanged_example :
    datapointAt ((plugin_ingest x86Indefinite (filterWith true [("factor", "100.0")]) 0
        (heapWith (single (Value.Array
          [Value.Integer 20, Value.Float (strtod "2.5")])))).1 0) 0 0
      = some { name := "value",
               value := Value.Array [Value.Integer 20, Value.Float (strtod "2.5")] } :=
  plugin_ingest_other_unchanged x86Indefinite (filterWith true [("factor", "100.0")]) 0
    (heapWith (single (Value.Array [Value.Integer 20, Value.Float (strtod "2.5")]))) 0 0
    ⟨"value", Value.Array [Value.Integer 20, Value.Float (strtod "2.5")]⟩ rfl
    ⟨by decide, by decide⟩

/-- C4: with the filter disabled the call changes nothing in memory, whatever the
configuration says about the factor, and hands the reading set it was given to
the output stream. -/
theorem plugin_ingest_disabled_identity (indef : Double → Int) (filter : FogLampFilter)
    (readingSet : Addr) (heap : Heap) (hen : filter.isEnabled = false) :
    (plugin_ingest indef filter readingSet heap).1 = heap ∧
      (plugin_ingest indef filter readingSet heap).2
        = [⟨filter.m_func, filter.m_data, readingSet⟩] := by
  rw [plugin_ingest_disabled indef filter readingSet heap hen]
  exact ⟨rfl, rfl⟩

/-- C4, instances: the scenario batch is unchanged by a disabled filter whose
factor is absent, and by one whose factor is malformed. -/
theorem plugin_ingest_disabled_identity_example :
    (plugin_ingest x86Indefinite (filterWith false []) 0 (heapWith scenarioBatch)).1
        = heapWith scenarioBatch ∧
      (plugin_ingest x86Indefinite (filterWith false [("factor", "abc")]) 0
        (heapWith scenarioBatch)).1 = heapWith scenarioBatch :=
  ⟨(plugin_ingest_disabled_identity x86Indefinite (filterWith false []) 0
      (heapWith scenarioBatch) rfl).1,
   (plugin_ingest_disabled_identity x86Indefinite (filterWith false [("factor", "abc")]) 0
      (heapWith scenarioBatch) rfl).1⟩

/-- C6: every call, enabled or not, calls the output stream `m_func` of the filter
exactly once, with the output handle `m_data` and the address of the reading set
it was given; memory differs from before at most at that address, where the
reading set is the one given, scaled in place if the filter is enabled. -/
theorem plugin_ingest_forwards_once (indef : Double → Int) (filter : FogLampFilter)
    (readingSet : Addr) (heap : Heap) :
    (plugin_ingest indef filter readingSet heap).2
        = [{ func := filter.m_func, handle := filter.m_data, readingSet := readingSet }] ∧
      (plugin_ingest indef filter readingSet heap).1
        = Function.update heap readingSet
            (if filter.isEnabled = true then
              scaleReadings indef (scaleFactorOf filter) (heap readingSet)
            else heap readingSet) := by
  cases hen : filter.isEnabled with
  | false =>
    rw [plugin_ingest_disabled indef filter readingSet heap hen]
    simp
  | true =>
    rw [plugin_ingest_enabled indef filter readingSet heap hen]
    simp

/-- C8: with the filter enabled, the factor applied to the reading set is `100.0`,
the value of `SCALE_FACTOR`, when the configuration has no item `factor`, and
the double parsed from the text of that item when it has one. -/
theorem plugin_ingest_factor (indef : Double → Int) (filter : FogLampFilter)
    (readingSet : Addr) (heap : Heap) (hen : filter.isEnabled = true) :
    Double.hundred.toRat = 100 ∧
      (filter.getConfig.itemExists "factor" = false →
        (plugin_ingest indef filter readingSet heap).1 readingSet
          = scaleReadings indef Double.hundred (heap readingSet)) ∧
      (filter.getConfig.itemExists "factor" = true →
        (plugin_ingest indef filter readingSet heap).1 readingSet
          = scaleReadings indef (strtod (filter.getConfig.getValue "factor"))
              (heap readingSet)) := by
  refine ⟨?_, ?_, ?_⟩
  · have e : Double.scale2 (Double.mant 0x4059000000000000) 1
        (-(Double.expo 0x4059000000000000)) = (7036874417766400, 70368744177664) := by
      decide
    have hb : (0x4059000000000000 : Nat) < FINITE_BOUND := by decide
    simp only [Double.hundred, Double.ofBits, dif_pos hb, Double.toRat, e]
    norm_num
  · intro h
    rw [plugin_ingest_batch indef filter readingSet heap hen]
    have e : strtod SCALE_FACTOR = Double.hundred := by decide
    simp [scaleFactorOf, h, e]
  · intro h
    rw [plugin_ingest_batch indef filter readingSet heap hen]
    simp [scaleFactorOf, h]

/-- C8, the example: with no item `factor` configured, `Integer(20)` becomes
`Integer(2000)`; with the item `factor` set to `1.5` it becomes `Integer(30)`. -/
theorem plugin_ingest_factor_example :
    datapointAt ((plugin_ingest x86Indefinite (filterWith true []) 0
        (heapWith scenarioBatch)).1 0) 0 0
      = some { name := "value", value := Value.Integer 2000 } ∧
    datapointAt ((plugin_ingest x86Indefinite (filterWith true [("factor", "1.5")]) 0
        (heapWith scenarioBatch)).1 0) 0 0
      = some { name := "value", value := Value.Integer 30 } := by
  constructor
  · rw [(plugin_ingest_factor x86Indefinite (filterWith true []) 0
      (heapWith scenarioBatch) rfl).2.1 rfl]
    rfl
  · rw [(plugin_ingest_factor x86Indefinite (filterWith true [("factor", "1.5")]) 0
      (heapWith scenarioBatch) rfl).2.2 rfl]
    rfl

/-! ## Particular factors -/

theorem toLong_mul_one (indef : Double → Int) (v : Int) (hv : exactAsDouble v) :
    Double.toLong indef (Double.mul (Double.ofLong v) Double.one) = v := by
  rw [mul_one, toLong_ofLong indef v hv]

theorem scaleDatapoint_one (indef : Double → Int) (dp : Datapoint)
    (hsmall : ∀ v, dp.value = Value.Integer v → exactAsDouble v) :
    scaleDatapoint indef Double.one dp = dp := by
  obtain ⟨nm, val⟩ := dp
  cases val with
  | Integer v =>
    simp only [scaleDatapoint, scaleValue]
    rw [toLong_mul_one indef v (hsmall v rfl)]
  | Float x =>
    simp only [scaleDatapoint, scaleValue]
    rw [mul_one]
  | String s => rfl
  | Array a => rfl
  | Object o => rfl

/-- C7, as the code has it: with the filter enabled and the factor `1.0`, a `Float`
value is unchanged, and an `Integer(v)` is unchanged when `v` converts to
`double` exactly, which every `v` with `|v| ≤ 2 ^ 53` does. -/
theorem plugin_ingest_factor_one (indef : Double → Int) (filter : FogLampFilter)
    (readingSet : Addr) (heap : Heap) (i j : Nat) (dp : Datapoint)
    (hen : filter.isEnabled = true) (hone : scaleFactorOf filter = Double.one)
    (hdp : datapointAt (heap readingSet) i j = some dp)
    (hexact : ∀ v, dp.value = Value.Integer v → exactAsDouble v) :
    datapointAt ((plugin_ingest indef filter readingSet heap).1 readingSet) i j
        = some dp ∧
      (∀ v : Int, v.natAbs ≤ 2 ^ 53 → exactAsDouble v) := by
  refine ⟨?_, exactAsDouble_of_small⟩
  rw [datapointAt_plugin_ingest indef filter readingSet heap hen, hdp, hone]
  simp only [Option.map_some']
  rw [scaleDatapoint_one indef dp hexact]

theorem exactAsDouble_two_pow_60 : exactAsDouble 1152921504606846976 := by
  have h := roundNE_exact_toRat false (2 ^ 60) 1 (2 ^ 52) 8 (by norm_num) (by decide)
    (by norm_num) (by norm_num) (by norm_num) (Or.inl (le_refl _)) (by decide)
  have e : Double.ofLong 1152921504606846976 = Double.roundNE false (2 ^ 60) 1 := rfl
  refine ⟨by norm_num, by norm_num, ?_, ?_⟩
  · rw [e]; exact h.1
  · rw [e, h.2]; norm_num

/-- C7, instances: with the factor text `1`, `Integer(2 ^ 53)`, `Integer(2 ^ 60)` and
`Float(0.1)` come out as they went in. -/
theorem plugin_ingest_factor_one_example :
    datapointAt ((plugin_ingest x86Indefinite (filterWith true [("factor", "1")]) 0
        (heapWith (single (Value.Integer 9007199254740992)))).1 0) 0 0
      = some { name := "value", value := Value.Integer 9007199254740992 } ∧
    datapointAt ((plugin_ingest x86Indefinite (filterWith true [("factor", "1")]) 0
        (heapWith (single (Value.Integer 1152921504606846976)))).1 0) 0 0
      = some { name := "value", value := Value.Integer 1152921504606846976 } ∧
    datapointAt ((plugin_ingest x86Indefinite (filterWith true [("factor", "1")]) 0
        (heapWith (single (Value.Float (strtod "0.1"))))).1 0) 0 0
      = some { name := "value", value := Value.Float (strtod "0.1") } :=
  ⟨(plugin_ingest_factor_one x86Indefinite (filterWith true [("factor", "1")]) 0
      (heapWith (single (Value.Integer 9007199254740992))) 0 0
      ⟨"value", Value.Integer 9007199254740992⟩ rfl (by decide) rfl
      (by intro v hv; cases hv; exact exactAsDouble_of_small _ (by decide))).1,
   (plugin_ingest_factor_one x86Indefinite (filterWith true [("factor", "1")]) 0
      (heapWith (single (Value.Integer 1152921504606846976))) 0 0
      ⟨"value", Value.Integer 1152921504606846976⟩ rfl (by decide) rfl
      (by intro v hv; cases hv; exact exactAsDouble_two_pow_60)).1,
   (plugin_ingest_factor_one x86Indefinite (filterWith true [("factor", "1")]) 0
      (heapWith (single (Value.Float (strtod "0.1")))) 0 0
      ⟨"value", Value.Float (strtod "0.1")⟩ rfl (by decide) rfl
      (by intro v hv; cases hv)).1⟩

/-- C7 fails for large integers: with the factor `1.0`, `Integer(2 ^ 53 + 1)`
becomes `Integer(2 ^ 53)`, because `2 ^ 53 + 1` is not a double and its
conversion rounds to `2 ^ 53`. -/
theorem plugin_ingest_factor_one_large_integer :
    scaleFactorOf (filterWith true [("factor", "1")]) = Double.one ∧
    datapointAt ((plugin_ingest x86Indefinite (filterWith true [("factor", "1")]) 0
        (heapWith (single (Value.Integer 9007199254740993)))).1 0) 0 0
      = some { name := "value", value := Value.Integer 9007199254740992 } := by
  refine ⟨by decide, ?_⟩
  rw [datapointAt_plugin_ingest x86Indefinite (filterWith true [("factor", "1")]) 0
    (heapWith (single (Value.Integer 9007199254740993))) rfl]
  have e : Double.toLong x86Indefinite (Double.mul (Double.ofLong 9007199254740993)
      (scaleFactorOf (filterWith true [("factor", "1")]))) = 9007199254740992 := by decide
  simp only [heapWith, single, datapointAt, if_true, List.getElem?_cons_zero, Option.map_some',
    scaleDatapoint, scaleValue, e]

theorem scaleFactorOf_malformed (filter : FogLampFilter)
    (hitem : filter.getConfig.itemExists "factor" = true)
    (hbad : noNumericPrefix (filter.getConfig.getValue "factor") = true) :
    scaleFactorOf filter = Double.zero := by
  unfold scaleFactorOf
  rw [if_pos hitem]
  exact strtod_noNumericPrefix _ hbad

/-- C9, as the code has it: with the filter enabled and a factor text that has no
numeric prefix, the factor is `0.0` and no error is raised; every 64-bit
`Integer` becomes `Integer(0)`, every finite `Float` becomes the zero of its own
sign (`0.0`, or `-0.0` for a negative value and for `-0.0`), and a `Float` that
is infinite or NaN becomes NaN. -/
theorem plugin_ingest_malformed_factor (indef : Double → Int) (filter : FogLampFilter)
    (readingSet : Addr) (heap : Heap) (i j : Nat) (dp : Datapoint)
    (hen : filter.isEnabled = true)
    (hitem : filter.getConfig.itemExists "factor" = true)
    (hbad : noNumericPrefix (filter.getConfig.getValue "factor") = true)
    (hdp : datapointAt (heap readingSet) i j = some dp) :
    scaleFactorOf filter = Double.zero ∧
      (∀ v : Int, dp.value = Value.Integer v → -2 ^ 63 ≤ v → v < 2 ^ 63 →
        datapointAt ((plugin_ingest indef filter readingSet heap).1 readingSet) i j
          = some { name := dp.name, value := Value.Integer 0 }) ∧
      (∀ (s : Bool) (k : Fin FINITE_BOUND), dp.value = Value.Float (Double.fin s k) →
        datapointAt ((plugin_ingest indef filter readingSet heap).1 readingSet) i j
          = some { name := dp.name, value := Value.Float (Double.signedZero s) }) ∧
      (∀ x : Double, dp.value = Value.Float x → x.isFinite = false →
        datapointAt ((plugin_ingest indef filter readingSet heap).1 readingSet) i j
          = some { name := dp.name, value := Value.Float Double.nan }) := by
  have hz := scaleFactorOf_malformed filter hitem hbad
  refine ⟨hz, ?_, ?_, ?_⟩
  · intro v hv hlo hhi
    rw [datapointAt_plugin_ingest indef filter readingSet heap hen, hdp, hz]
    have hv64 : v.natAbs < 2 ^ 64 := by
      norm_num at hlo hhi ⊢
      omega
    simp [scaleDatapoint, scaleValue, hv, toLong_mul_zero indef v hv64]
  · intro s k hv
    rw [datapointAt_plugin_ingest indef filter readingSet heap hen, hdp, hz]
    simp only [Option.map_some', scaleDatapoint, scaleValue, hv, mul_zero_fin]
    rfl
  · intro x hv hx
    rw [datapointAt_plugin_ingest indef filter readingSet heap hen, hdp, hz]
    simp only [Option.map_some', scaleDatapoint, scaleValue, hv, mul_zero_not_finite x hx]

/-- C9, instances: with the factor text `abc`, `Integer(20)` becomes `Integer(0)`,
`Float(2.5)` becomes `Float(0.0)` and `Float(-2.5)` becomes `Float(-0.0)`. -/
theorem plugin_ingest_malformed_factor_example :
    scaleFactorOf (filterWith true [("factor", "abc")]) = Double.zero ∧
    datapointAt ((plugin_ingest x86Indefinite (filterWith true [("factor", "abc")]) 0
        (heapWith scenarioBatch)).1 0) 0 0
      = some { name := "value", value := Value.Integer 0 } ∧
    datapointAt ((plugin_ingest x86Indefinite (filterWith true [("factor", "abc")]) 0
        (heapWith (single (Value.Float (strtod "2.5"))))).1 0) 0 0
      = some { name := "value", value := Value.Float Double.zero } ∧
    datapointAt ((plugin_ingest x86Indefinite (filterWith true [("factor", "abc")]) 0
        (heapWith (single (Value.Float (strtod "-2.5"))))).1 0) 0 0
      = some { name := "value", value := Value.Float (Double.signedZero true) } :=
  ⟨(plugin_ingest_malformed_factor x86Indefinite (filterWith true [("factor", "abc")]) 0
      (heapWith scenarioBatch) 0 0 ⟨"value", Value.Integer 20⟩ rfl rfl (by decide) rfl).1,
   (plugin_ingest_malformed_factor x86Indefinite (filterWith true [("factor", "abc")]) 0
      (heapWith scenarioBatch) 0 0 ⟨"value", Value.Integer 20⟩ rfl rfl (by decide) rfl).2.1
      20 rfl (by decide) (by decide),
   (plugin_ingest_malformed_factor x86Indefinite (filterWith true [("factor", "abc")]) 0
      (heapWith (single (Value.Float (strtod "2.5")))) 0 0
      ⟨"value", Value.Float (strtod "2.5")⟩ rfl rfl (by decide) rfl).2.2.1
      false ⟨0x4004000000000000, by decide⟩
      (congrArg Value.Float (by decide)),
   (plugin_ingest_malformed_factor x86Indefinite (filterWith true [("factor", "abc")]) 0
      (heapWith (single (Value.Float (strtod "-2.5")))) 0 0
      ⟨"value", Value.Float (strtod "-2.5")⟩ rfl rfl (by decide) rfl).2.2.1
      true ⟨0x4004000000000000, by decide⟩
      (congrArg Value.Float (by decide))⟩

/-- C9 fails for a `Float` that is not finite: with the factor text `abc` the factor
is `0.0`, and `Float(+infinity)` becomes `Float(NaN)`, not `Float(0.0)`. -/
theorem plugin_ingest_malformed_factor_infinity :
    scaleFactorOf (filterWith true [("factor", "abc")]) = Double.zero ∧
    datapointAt ((plugin_ingest x86Indefinite (filterWith true [("factor", "abc")]) 0
        (heapWith (single (Value.Float (Double.inf false))))).1 0) 0 0
      = some { name := "value", value := Value.Float Double.nan } ∧
    Double.nan ≠ Double.zero := by
  refine ⟨by decide, ?_, by decide⟩
  rw [datapointAt_plugin_ingest x86Indefinite (filterWith true [("factor", "abc")]) 0
    (heapWith (single (Value.Float (Double.inf false)))) rfl]
  have e : Double.mul (Double.inf false) (scaleFactorOf (filterWith true [("factor", "abc")]))
      = Double.nan := by decide
  simp only [heapWith, single, datapointAt, if_true, List.getElem?_cons_zero, Option.map_some',
    scaleDatapoint, scaleValue, e]

theorem plugin_ingest_twice_batch (indef : Double → Int) (filter : FogLampFilter)
    (readingSet : Addr) (heap : Heap) (hen : filter.isEnabled = true) :
    (plugin_ingest indef filter readingSet
        (plugin_ingest indef filter readingSet heap).1).1 readingSet
      = scaleReadings indef (scaleFactorOf filter)
          (scaleReadings indef (scaleFactorOf filter) (heap readingSet)) := by
  rw [plugin_ingest_batch indef filter readingSet _ hen,
    plugin_ingest_batch indef filter readingSet heap hen]

/-- C10, as the code has it: two calls with the factor `f` give in a data point what
one call with the factor `f * f` gives whenever nothing is lost on the way: for
a Float when neither `x * f` (for finite `x`) nor `f * f` is rounded; for an
Integer when `(double)v * f` is not rounded and is an integer that fits a
`long`, and `f * f` is not rounded; and for every other value.  With the factor
`1.0`, whose square is `1.0`, they agree for every Float and for every Integer
whose round trip `(long)(double)v` is defined. -/
theorem plugin_ingest_twice (indef : Double → Int) (filter filterSq : FogLampFilter)
    (readingSet : Addr) (heap : Heap) (i j : Nat) (dp : Datapoint)
    (hen : filter.isEnabled = true) (hensq : filterSq.isEnabled = true)
    (hsq : scaleFactorOf filterSq
      = Double.mul (scaleFactorOf filter) (scaleFactorOf filter))
    (hdp : datapointAt (heap readingSet) i j = some dp) :
    (squaresExactly (scaleFactorOf filter) dp.value = true →
        datapointAt ((plugin_ingest indef filter readingSet
            (plugin_ingest indef filter readingSet heap).1).1 readingSet) i j
          = datapointAt ((plugin_ingest indef filterSq readingSet heap).1 readingSet) i j) ∧
      (scaleFactorOf filter = Double.one → castDefinedAt dp.value = true →
        scaleFactorOf filterSq = Double.one ∧
        datapointAt ((plugin_ingest indef filter readingSet
            (plugin_ingest indef filter readingSet heap).1).1 readingSet) i j
          = datapointAt ((plugin_ingest indef filterSq readingSet heap).1 readingSet) i j) := by
  have htwice : datapointAt ((plugin_ingest indef filter readingSet
      (plugin_ingest indef filter readingSet heap).1).1 readingSet) i j
      = some (scaleDatapoint indef (scaleFactorOf filter)
          (scaleDatapoint indef (scaleFactorOf filter) dp)) := by
    rw [plugin_ingest_twice_batch indef filter readingSet heap hen,
      datapointAt_scaleReadings, datapointAt_scaleReadings, hdp]
    rfl
  have honce : datapointAt ((plugin_ingest indef filterSq readingSet heap).1 readingSet) i j
      = some (scaleDatapoint indef
          (Double.mul (scaleFactorOf filter) (scaleFactorOf filter)) dp) := by
    rw [datapointAt_plugin_ingest indef filterSq readingSet heap hensq, hdp, hsq]
    rfl
  rw [htwice, honce]
  obtain ⟨nm, val⟩ := dp
  constructor
  · intro hex
    cases val with
    | Integer v =>
      simp only [squaresExactly, Bool.and_eq_true] at hex
      simp only [scaleDatapoint, scaleValue]
      rw [toLong_twice_exact indef v _ hex.1.1 hex.1.2 hex.2]
    | Float x =>
      simp only [squaresExactly, Bool.and_eq_true, Bool.or_eq_true, Bool.not_eq_true'] at hex
      simp only [scaleDatapoint, scaleValue]
      rcases hex.1 with hx | hx
      · rw [mul_mul_not_finite x _ hx hex.2]
      · rw [mul_mul_exact x _ hx hex.2]
    | String s => rfl
    | Array a => rfl
    | Object o => rfl
  · intro hone hdef
    refine ⟨by rw [hsq, hone, mul_one], ?_⟩
    rw [hone]
    cases val with
    | Integer v =>
      simp only [castDefinedAt] at hdef
      simp only [scaleDatapoint, scaleValue, mul_one]
      rw [toLong_ofLong_toLong indef _ hdef]
    | Float x => simp only [scaleDatapoint, scaleValue, mul_one]
    | String s => rfl
    | Array a => rfl
    | Object o => rfl

/-- C10, instances: two calls with `100.0` and one call with `10000` both make
`Integer(20)` into `Integer(200000)`; two calls with `0.5` and one call with
`0.25` both make `Float(2.5)` into `Float(0.625)`; two calls with `3` and one
call with `9` both make `Integer(2 ^ 53 + 1)` into `Integer(9 * 2 ^ 53)`; two
calls with `1` and one call with `1` both make `Integer(2 ^ 53 + 1)` into
`Integer(2 ^ 53)`; two calls with `2` and one call with `4` agree on
`Float(-infinity)`. -/
theorem plugin_ingest_twice_example :
    (datapointAt ((plugin_ingest x86Indefinite (filterWith true [("factor", "100.0")]) 0
        (plugin_ingest x86Indefinite (filterWith true [("factor", "100.0")]) 0
          (heapWith scenarioBatch)).1).1 0) 0 0
      = datapointAt ((plugin_ingest x86Indefinite (filterWith true [("factor", "10000")]) 0
          (heapWith scenarioBatch)).1 0) 0 0 ∧
     datapointAt ((plugin_ingest x86Indefinite (filterWith true [("factor", "10000")]) 0
          (heapWith scenarioBatch)).1 0) 0 0
      = some { name := "value", value := Value.Integer 200000 }) ∧
    (datapointAt ((plugin_ingest x86Indefinite (filterWith true [("factor", "0.5")]) 0
        (plugin_ingest x86Indefinite (filterWith true [("factor", "0.5")]) 0
          (heapWith (single (Value.Float (strtod "2.5"))))).1).1 0) 0 0
      = datapointAt ((plugin_ingest x86Indefinite (filterWith true [("factor", "0.25")]) 0
          (heapWith (single (Value.Float (strtod "2.5"))))).1 0) 0 0 ∧
     datapointAt ((plugin_ingest x86Indefinite (filterWith true [("factor", "0.25")]) 0
          (heapWith (single (Value.Float (strtod "2.5"))))).1 0) 0 0
      = some { name := "value", value := Value.Float (strtod "0.625") }) ∧
    (datapointAt ((plugin_ingest x86Indefinite (filterWith true [("factor", "3")]) 0
        (plugin_ingest x86Indefinite (filterWith true [("factor", "3")]) 0
          (heapWith (single (Value.Integer 9007199254740993)))).1).1 0) 0 0
      = datapointAt ((plugin_ingest x86Indefinite (filterWith true [("factor", "9")]) 0
          (heapWith (single (Value.Integer 9007199254740993)))).1 0) 0 0 ∧
     datapointAt ((plugin_ingest x86Indefinite (filterWith true [("factor", "9")]) 0
          (heapWith (single (Value.Integer 9007199254740993)))).1 0) 0 0
      = some { name := "value", value := Value.Integer 81064793292668928 }) ∧
    (datapointAt ((plugin_ingest x86Indefinite (filterWith true [("factor", "1")]) 0
        (plugin_ingest x86Indefinite (filterWith true [("factor", "1")]) 0
          (heapWith (single (Value.Integer 9007199254740993)))).1).1 0) 0 0
      = datapointAt ((plugin_ingest x86Indefinite (filterWith true [("factor", "1")]) 0
          (heapWith (single (Value.Integer 9007199254740993)))).1 0) 0 0 ∧
     datapointAt ((plugin_ingest x86Indefinite (filterWith true [("factor", "1")]) 0
          (heapWith (single (Value.Integer 9007199254740993)))).1 0) 0 0
      = some { name := "value", value := Value.Integer 9007199254740992 }) ∧
    datapointAt ((plugin_ingest x86Indefinite (filterWith true [("factor", "2")]) 0
        (plugin_ingest x86Indefinite (filterWith true [("factor", "2")]) 0
          (heapWith (single (Value.Float (Double.inf true))))).1).1 0) 0 0
      = datapointAt ((plugin_ingest x86Indefinite (filterWith true [("factor", "4")]) 0
          (heapWith (single (Value.Float (Double.inf true))))).1 0) 0 0 := by
  refine ⟨⟨?_, ?_⟩, ⟨?_, ?_⟩, ⟨?_, ?_⟩, ⟨?_, ?_⟩, ?_⟩
  · exact (plugin_ingest_twice x86Indefinite (filterWith true [("factor", "100.0")])
      (filterWith true [("factor", "10000")]) 0 (heapWith scenarioBatch) 0 0
      ⟨"value", Value.Integer 20⟩ rfl rfl (by decide) rfl).1 (by decide)
  · rw [datapointAt_plugin_ingest x86Indefinite (filterWith true [("factor", "10000")]) 0
      (heapWith scenarioBatch) rfl]
    have e : Double.toLong x86Indefinite (Double.mul (Double.ofLong 20)
        (scaleFactorOf (filterWith true [("factor", "10000")]))) = 200000 := by decide
    simp only [heapWith, scenarioBatch, datapointAt, if_true, List.getElem?_cons_zero,
      Option.map_some', scaleDatapoint, scaleValue, e]
  · exact (plugin_ingest_twice x86Indefinite (filterWith true [("factor", "0.5")])
      (filterWith true [("factor", "0.25")]) 0 (heapWith (single (Value.Float (strtod "2.5"))))
      0 0 ⟨"value", Value.Float (strtod "2.5")⟩ rfl rfl (by decide) rfl).1 (by decide)
  · rw [datapointAt_plugin_ingest x86Indefinite (filterWith true [("factor", "0.25")]) 0
      (heapWith (single (Value.Float (strtod "2.5")))) rfl]
    have e : Double.mul (strtod "2.5") (scaleFactorOf (filterWith true [("factor", "0.25")]))
        = strtod "0.625" := by decide
    simp only [heapWith, single, datapointAt, if_true, List.getElem?_cons_zero,
      Option.map_some', scaleDatapoint, scaleValue, e]
  · exact (plugin_ingest_twice x86Indefinite (filterWith true [("factor", "3")])
      (filterWith true [("factor", "9")]) 0
      (heapWith (single (Value.Integer 9007199254740993))) 0 0
      ⟨"value", Value.Integer 9007199254740993⟩ rfl rfl (by decide) rfl).1 (by decide)
  · rw [datapointAt_plugin_ingest x86Indefinite (filterWith true [("factor", "9")]) 0
      (heapWith (single (Value.Integer 9007199254740993))) rfl]
    have e : Double.toLong x86Indefinite (Double.mul (Double.ofLong 9007199254740993)
        (scaleFactorOf (filterWith true [("factor", "9")]))) = 81064793292668928 := by decide
    simp only [heapWith, single, datapointAt, if_true, List.getElem?_cons_zero,
      Option.map_some', scaleDatapoint, scaleValue, e]
  · exact ((plugin_ingest_twice x86Indefinite (filterWith true [("factor", "1")])
      (filterWith true [("factor", "1")]) 0
      (heapWith (single (Value.Integer 9007199254740993))) 0 0
      ⟨"value", Value.Integer 9007199254740993⟩ rfl rfl (by decide) rfl).2
      (by decide) (by decide)).2
  · rw [datapointAt_plugin_ingest x86Indefinite (filterWith true [("factor", "1")]) 0
      (heapWith (single (Value.Integer 9007199254740993))) rfl]
    have e : Double.toLong x86Indefinite (Double.mul (Double.ofLong 9007199254740993)
        (scaleFactorOf (filterWith true [("factor", "1")]))) = 9007199254740992 := by decide
    simp only [heapWith, single, datapointAt, if_true, List.getElem?_cons_zero,
      Option.map_some', scaleDatapoint, scaleValue, e]
  · exact (plugin_ingest_twice x86Indefinite (filterWith true [("factor", "2")])
      (filterWith true [("factor", "4")]) 0
      (heapWith (single (Value.Float (Double.inf true)))) 0 0
      ⟨"value", Value.Float (Double.inf true)⟩ rfl rfl (by decide) rfl).1 (by decide)

/-- C10 fails for other factors: two calls with the factor `1.5` leave `Integer(1)`
as `Integer(1)`, one call with its square `2.25` makes it `Integer(2)`; two
calls with the factor `3` make `Float(0.1)` into `0.9000000000000001`, one call
with its square `9` makes it `0.9`. -/
theorem plugin_ingest_twice_not_square :
    Double.mul (scaleFactorOf (filterWith true [("factor", "1.5")]))
        (scaleFactorOf (filterWith true [("factor", "1.5")]))
      = scaleFactorOf (filterWith true [("factor", "2.25")]) ∧
    datapointAt ((plugin_ingest x86Indefinite (filterWith true [("factor", "1.5")]) 0
        (plugin_ingest x86Indefinite (filterWith true [("factor", "1.5")]) 0
          (heapWith (single (Value.Integer 1)))).1).1 0) 0 0
      = some { name := "value", value := Value.Integer 1 } ∧
    datapointAt ((plugin_ingest x86Indefinite (filterWith true [("factor", "2.25")]) 0
        (heapWith (single (Value.Integer 1)))).1 0) 0 0
      = some { name := "value", value := Value.Integer 2 } ∧
    Double.mul (scaleFactorOf (filterWith true [("factor", "3")]))
        (scaleFactorOf (filterWith true [("factor", "3")]))
      = scaleFactorOf (filterWith true [("factor", "9")]) ∧
    datapointAt ((plugin_ingest x86Indefinite (filterWith true [("factor", "3")]) 0
        (plugin_ingest x86Indefinite (filterWith true [("factor", "3")]) 0
          (heapWith (single (Value.Float (strtod "0.1"))))).1).1 0) 0 0
      = some { name := "value", value := Value.Float (strtod "0.9000000000000001") } ∧
    datapointAt ((plugin_ingest x86Indefinite (filterWith true [("factor", "9")]) 0
        (heapWith (single (Value.Float (strtod "0.1"))))).1 0) 0 0
      = some { name := "value", value := Value.Float (strtod "0.9") } ∧
    strtod "0.9000000000000001" ≠ strtod "0.9" := by
  refine ⟨by decide, ?_, ?_, by decide, ?_, ?_, by decide⟩
  · rw [plugin_ingest_twice_batch x86Indefinite (filterWith true [("factor", "1.5")]) 0
      (heapWith (single (Value.Integer 1))) rfl, datapointAt_scaleReadings,
      datapointAt_scaleReadings]
    have e : Double.toLong x86Indefinite (Double.mul
        (Double.ofLong (Double.toLong x86Indefinite (Double.mul (Double.ofLong 1)
          (scaleFactorOf (filterWith true [("factor", "1.5")])))))
        (scaleFactorOf (filterWith true [("factor", "1.5")]))) = 1 := by decide
    simp only [heapWith, single, datapointAt, if_true, List.getElem?_cons_zero,
      Option.map_some', scaleDatapoint, scaleValue, e]
  · rw [datapointAt_plugin_ingest x86Indefinite (filterWith true [("factor", "2.25")]) 0
      (heapWith (single (Value.Integer 1))) rfl]
    have e : Double.toLong x86Indefinite (Double.mul (Double.ofLong 1)
        (scaleFactorOf (filterWith true [("factor", "2.25")]))) = 2 := by decide
    simp only [heapWith, single, datapointAt, if_true, List.getElem?_cons_zero,
      Option.map_some', scaleDatapoint, scaleValue, e]
  · rw [plugin_ingest_twice_batch x86Indefinite (filterWith true [("factor", "3")]) 0
      (heapWith (single (Value.Float (strtod "0.1")))) rfl, datapointAt_scaleReadings,
      datapointAt_scaleReadings]
    have e : Double.mul (Double.mul (strtod "0.1")
        (scaleFactorOf (filterWith true [("factor", "3")])))
        (scaleFactorOf (filterWith true [("factor", "3")]))
        = strtod "0.9000000000000001" := by decide
    simp only [heapWith, single, datapointAt, if_true, List.getElem?_cons_zero,
      Option.map_some', scaleDatapoint, scaleValue, e]
  · rw [datapointAt_plugin_ingest x86Indefinite (filterWith true [("factor", "9")]) 0
      (heapWith (single (Value.Float (strtod "0.1")))) rfl]
    have e : Double.mul (strtod "0.1") (scaleFactorOf (filterWith true [("factor", "9")]))
        = strtod "0.9" := by decide
    simp only [heapWith, single, datapointAt, if_true, List.getElem?_cons_zero,
      Option.map_some', scaleDatapoint, scaleValue, e]

end ScaleFilter
